import Mathlib

/-!
Verification development for the UserLens analysis pipeline.

Shallow embedding of the core pipeline of the UserLens repository:
per-file component extraction (`src/analyzers/react/react-analyzer.ts`),
semantic classification (`src/nlp/semantic-processor.ts`), pattern and
workflow detection (`src/nlp/pattern-matcher.ts`), the content-hash cache
(`src/cache/cache-manager.ts`) and the analyze command's change-set
computation (`src/cli/index.ts`).

Modelling conventions:
* JavaScript strings are Lean `String`s; `String.prototype.includes` is
  `strIncludes`, `toLowerCase` is `strToLower` (ASCII data only).
* MD5 hashing and `path.relative` are external primitives and appear as
  function parameters of the pipeline (`AnalyzeEnv`).
* JavaScript numbers (confidence scores) are modelled as exact rationals.
* The metadata cache directory (one JSON file per entry, named by the MD5
  of the relative source path) is modelled as an association list keyed by
  the relative path itself; fingerprint collisions are out of scope per
  spec section 4.4.  Directory enumeration order is the list order.
* The persisted components/patterns/workflows artifacts are modelled by
  their parsed values (`Option` = file present or absent); JSON
  serialization is deterministic and round-trips, so value equality is
  byte equality of the artifact files.
-/

namespace UserLens

/-! ## String utilities (JavaScript primitives) -/

/-- Boolean prefix test on character lists. -/
def isPrefixB : List Char → List Char → Bool
  | [], _ => true
  | _ :: _, [] => false
  | a :: l1, b :: l2 => a == b && isPrefixB l1 l2

/-- Boolean infix test on character lists (the empty pattern matches). -/
def infixB (pat : List Char) : List Char → Bool
  | [] => isPrefixB pat []
  | l@(_ :: l2) => isPrefixB pat l || infixB pat l2

/-- JavaScript `s.includes(pat)`. -/
def strIncludes (s pat : String) : Bool :=
  infixB pat.toList s.toList

/-- JavaScript `String.prototype.replace` with a plain-string pattern:
replaces only the first occurrence. -/
def replaceFirstL (pat rep : List Char) : List Char → List Char
  | [] => if isPrefixB pat [] then rep else []
  | l@(c :: l2) =>
    if isPrefixB pat l then rep ++ l.drop pat.length
    else c :: replaceFirstL pat rep l2

/-- JavaScript `s.replace(pat, rep)` (first occurrence only). -/
def replaceFirst (s pat rep : String) : String :=
  String.mk (replaceFirstL pat.toList rep.toList s.toList)

/-- The global regex replace `([a-z])([A-Z])` → `$1 $2`: inserts a space
between a lowercase letter and the uppercase letter that follows it,
resuming the scan after each match. -/
def camelSplitLowerUpper : List Char → List Char
  | [] => []
  | [c] => [c]
  | a :: b :: l =>
    if a.isLower && b.isUpper then a :: ' ' :: camelSplitLowerUpper (b :: l)
    else a :: camelSplitLowerUpper (b :: l)

/-- The global regex replace `([A-Z])([A-Z][a-z])` → `$1 $2`: inserts a
space between an uppercase letter and an uppercase-lowercase pair,
resuming the scan after the three matched characters. -/
def camelSplitUpperRun : List Char → List Char
  | [] => []
  | [c] => [c]
  | [c, d] => [c, d]
  | a :: b :: c :: l =>
    if a.isUpper && b.isUpper && c.isLower then
      a :: ' ' :: b :: c :: camelSplitUpperRun l
    else a :: camelSplitUpperRun (b :: c :: l)

/-- `ReactAnalyzer.formatTriggerName`: camel/Pascal case to
space-separated lowercase words. -/
def formatTriggerName (name : String) : String :=
  String.mk ((camelSplitUpperRun (camelSplitLowerUpper name.toList)).map Char.toLower)

/-- Capitalize the first character (JS `part.charAt(0).toUpperCase() + part.slice(1)`,
also the regex replace `^.` → uppercase). -/
def capitalizeFirst (s : String) : String :=
  match s.toList with
  | [] => ""
  | c :: l => String.mk (c.toUpper :: l)

/-- JavaScript `s.toLowerCase()` (character-list implementation of
`String.toLower`). -/
def strToLower (s : String) : String :=
  String.mk (s.toList.map Char.toLower)

/-- JavaScript `s.substring(n)` (character-list implementation of
`String.drop`). -/
def strDrop (s : String) (n : Nat) : String :=
  String.mk (s.toList.drop n)

/-- JavaScript `String.prototype.split` on a character class: consecutive or
leading/trailing separators produce empty pieces. -/
def splitChars (p : Char → Bool) : List Char → List (List Char)
  | [] => [[]]
  | c :: l =>
    if p c then [] :: splitChars p l
    else
      match splitChars p l with
      | [] => [[c]]
      | g :: gs => (c :: g) :: gs

/-- JavaScript `s.startsWith(pat)` (character-list implementation). -/
def strStartsWith (s pat : String) : Bool :=
  isPrefixB pat.toList s.toList

/-- `path.isAbsolute` for POSIX paths. -/
def isAbsolutePath (s : String) : Bool :=
  strStartsWith s "/"

/-- JavaScript `Array.prototype.includes` on string lists. -/
def includesStr (l : List String) (s : String) : Bool :=
  l.any (fun y => y == s)

/-- First-occurrence association-list lookup (plain JS object property read). -/
def lookupAssoc (l : List (String × String)) (k : String) : Option String :=
  match l.find? (fun kv => kv.1 == k) with
  | some kv => some kv.2
  | none => none

/-! ## Data model (`src/models/interfaces.ts`) -/

/-- `ComponentCategory`. -/
inductive ComponentCategory where
  | form
  | navigation
  | display
  | interaction
  | layout
deriving DecidableEq, BEq

/-- The `UserAction.type` union `'click' | 'input' | 'navigation' | 'submit'`. -/
inductive ActionType where
  | click
  | input
  | navigation
  | submit
deriving DecidableEq, BEq

/-- `UserAction`. -/
structure UserAction where
  type : ActionType
  trigger : String
  description : String
  outcome : String
deriving DecidableEq, BEq

/-- `PropDefinition` (the optional description/defaultValue fields are never
produced by the extractor and are omitted). -/
structure PropDefinition where
  name : String
  type : String
  required : Bool
deriving DecidableEq, BEq

/-- `ComponentMetadata`; `children` is recursive in the source interface, so
this is an inductive type with explicit projections. -/
inductive ComponentMetadata where
  | mk
    (name : String)
    (filePath : String)
    (props : List PropDefinition)
    (children : List ComponentMetadata)
    (userActions : List UserAction)
    (semanticCategory : ComponentCategory)
    (description : String)

def ComponentMetadata.name : ComponentMetadata → String
  | .mk n _ _ _ _ _ _ => n

def ComponentMetadata.filePath : ComponentMetadata → String
  | .mk _ fp _ _ _ _ _ => fp

def ComponentMetadata.props : ComponentMetadata → List PropDefinition
  | .mk _ _ ps _ _ _ _ => ps

def ComponentMetadata.children : ComponentMetadata → List ComponentMetadata
  | .mk _ _ _ cs _ _ _ => cs

def ComponentMetadata.userActions : ComponentMetadata → List UserAction
  | .mk _ _ _ _ ua _ _ => ua

def ComponentMetadata.semanticCategory : ComponentMetadata → ComponentCategory
  | .mk _ _ _ _ _ sc _ => sc

def ComponentMetadata.description : ComponentMetadata → String
  | .mk _ _ _ _ _ _ d => d

/-- The spread-update `{ ...parsedMetadata, filePath: relativeFilePath }`. -/
def ComponentMetadata.withFilePath : ComponentMetadata → String → ComponentMetadata
  | .mk n _ ps cs ua sc d, fp => .mk n fp ps cs ua sc d

/-- `NlpComponentContext`: auxiliary context handed to the NLP processor
(text in significant JSX tags, comments, import sources, lowercase HTML
tag names). -/
structure NlpComponentContext where
  filePath : String
  props : List PropDefinition
  jsxTextContent : List String
  commentsLeading : List String
  commentsTrailing : List String
  commentsInner : List String
  commentsJsdoc : List String
  importSources : List String
  htmlTagsUsed : List String

/-! ## Semantic classifier (`NLPProcessor`, `src/nlp/semantic-processor.ts`) -/

/-- `NLPProcessor.semanticMappings`, in declaration (= iteration) order. -/
def semanticMappings : List (String × String) :=
  [("Login", "Sign in to your account"),
   ("Register", "Create a new account"),
   ("SignUp", "Create a new account"),
   ("Profile", "Manage your profile information"),
   ("Settings", "Configure your preferences"),
   ("Dashboard", "View your overview and statistics"),
   ("User", "Your account information"),
   ("Password", "Manage password security"),
   ("Notification", "Manage your alerts and messages"),
   ("Search", "Find what you need"),
   ("Filter", "Narrow down your results"),
   ("Cart", "Your shopping cart"),
   ("Checkout", "Complete your purchase"),
   ("Product", "View product details"),
   ("Admin", "Administrative controls"),
   ("Navigation", "Navigate through the application"),
   ("Menu", "Access different sections"),
   ("Form", "Enter your information"),
   ("List", "Browse through items"),
   ("Table", "View structured data"),
   ("Modal", "View additional information"),
   ("Popup", "Quick information or action"),
   ("Button", "Perform an action"),
   ("Input", "Enter information"),
   ("Select", "Choose from options"),
   ("Dropdown", "Select from a list"),
   ("Checkbox", "Toggle an option"),
   ("Radio", "Choose one option"),
   ("Sidebar", "Access additional navigation"),
   ("Header", "Main navigation area"),
   ("Footer", "Additional information")]

/-- A JS truthiness-guarded object read: `if (obj[k]) return obj[k]`.
An empty-string value is falsy and falls through. -/
def truthyLookup (l : List (String × String)) (k : String) : Option String :=
  match lookupAssoc l k with
  | some v => if v = "" then none else some v
  | none => none

/-- The trailing humanization of `NLPProcessor.generateDescription`: insert a
space before an uppercase letter following a lowercase letter (and before an
uppercase-lowercase pair following an uppercase letter), then capitalize the
first character. -/
def humanizeName (name : String) : String :=
  capitalizeFirst (String.mk (camelSplitUpperRun (camelSplitLowerUpper name.toList)))

/-- `NLPProcessor.generateDescription` (`customMappings` is the constructor
argument; props and additionalContext are accepted and unused, per the
source's TODO comments). -/
def generateDescription (customMappings : List (String × String))
    (componentName : String) (props : List PropDefinition)
    (additionalContext : NlpComponentContext) : String :=
  match truthyLookup customMappings componentName with
  | some d => d
  | none =>
    match truthyLookup semanticMappings componentName with
    | some d => d
    | none =>
      match semanticMappings.findSome?
          (fun pd => if strIncludes componentName pd.1 then some pd.2 else none) with
      | some d => d
      | none => humanizeName componentName

/-- `NLPProcessor.categorizeComponent`: ordered keyword rules over the
lowercased name and prop names; `additionalContext` is accepted and unused
(the source only mentions it in TODO comments). -/
def categorizeComponent (componentName : String) (props : List PropDefinition)
    (additionalContext : NlpComponentContext) : ComponentCategory :=
  let name := (strToLower componentName)
  let propNames := props.map (fun p => (strToLower p.name))
  if strIncludes name "form" || strIncludes name "input" ||
     strIncludes name "login" || strIncludes name "register" ||
     propNames.any (fun p => strIncludes p "onsubmit" || strIncludes p "form") then
    ComponentCategory.form
  else if strIncludes name "nav" || strIncludes name "menu" ||
     strIncludes name "link" || strIncludes name "route" ||
     propNames.any (fun p => strIncludes p "href" || strIncludes p "to" || strIncludes p "path") then
    ComponentCategory.navigation
  else if strIncludes name "button" || strIncludes name "click" ||
     strIncludes name "action" ||
     propNames.any (fun p => strIncludes p "onclick" || strIncludes p "onpress") then
    ComponentCategory.interaction
  else if strIncludes name "view" || strIncludes name "display" ||
     strIncludes name "show" || strIncludes name "card" ||
     strIncludes name "list" || strIncludes name "table" then
    ComponentCategory.display
  else
    ComponentCategory.layout

/-! Spec-side reformulation of the classifier (spec section 4.2): an ordered,
data-driven rule table with first-match-wins semantics and a LAYOUT default.
The keyword sets are the ones hardcoded in the source rules. -/

/-- One spec-style categorization rule: a category, name keywords and prop
keywords. -/
structure CategoryRule where
  category : ComponentCategory
  nameKeywords : List String
  propKeywords : List String

/-- The ordered rule table FORM → NAVIGATION → INTERACTION → DISPLAY. -/
def categoryRules : List CategoryRule :=
  [⟨ComponentCategory.form, ["form", "input", "login", "register"], ["onsubmit", "form"]⟩,
   ⟨ComponentCategory.navigation, ["nav", "menu", "link", "route"], ["href", "to", "path"]⟩,
   ⟨ComponentCategory.interaction, ["button", "click", "action"], ["onclick", "onpress"]⟩,
   ⟨ComponentCategory.display, ["view", "display", "show", "card", "list", "table"], []⟩]

/-- A rule matches when a name keyword is a substring of the lowercased name,
or some prop keyword is a substring of some lowercased prop name. -/
def ruleMatches (r : CategoryRule) (name : String) (propNames : List String) : Bool :=
  r.nameKeywords.any (fun k => strIncludes name k) ||
  propNames.any (fun p => r.propKeywords.any (fun k => strIncludes p k))

/-- First-match-wins evaluation of an ordered rule list, LAYOUT by default. -/
def firstMatchCategory : List CategoryRule → String → List String → ComponentCategory
  | [], _, _ => ComponentCategory.layout
  | r :: rs, name, propNames =>
    if ruleMatches r name propNames then r.category
    else firstMatchCategory rs name propNames

/-- Modelled from the spec: the classifier as the spec states it —
first-match-wins through the ordered rule table on the lowercased component
name and prop names. -/
def specCategorize (componentName : String) (props : List PropDefinition) : ComponentCategory :=
  firstMatchCategory categoryRules (strToLower componentName)
    (props.map (fun p => (strToLower p.name)))

/-! ## Component extractor (`ReactAnalyzer`,
`src/analyzers/react/react-analyzer.ts`)

The Babel syntax tree is embedded as the document-ordered list of the
traversal events the extractor reacts to.  One syntactic declaration may
produce several events (an exported function yields both an export event
and a function-parameters event), matching how several visitors fire on
the same subtree. -/

/-- The TypeScript type-annotation kinds `extractProps` distinguishes. -/
inductive TSTypeKind where
  | str
  | num
  | boolean
  | func
  | objLit
  | arr
  | other
deriving DecidableEq

/-- One property signature of a TS interface: name, `?` optionality, type. -/
structure TSField where
  name : String
  optional : Bool
  kind : TSTypeKind
deriving DecidableEq

/-- The traversal events of one parsed file, in document order.
`propTypesAssign` carries, per object property with an identifier key, the
optional `(objectIdentifier, propertyIdentifier)` pair of a one-level member
expression value (`X.y`); any other value shape is `none`.
`funcNode` is a function declaration or arrow function with at least one
parameter; it carries `some names` when the first parameter is an object
destructuring pattern with those identifier keys. -/
inductive JsNode where
  | exportDefaultIdent (name : String)
  | exportDefaultFunc (id : Option String)
  | exportDefaultClass (id : Option String)
  | exportNamedFunc (id : Option String)
  | propTypesAssign (entries : List (String × Option (String × String)))
  | tsInterfaceDecl (name : String) (fields : List TSField)
  | funcNode (firstParamNames : Option (List String))
  | otherNode
deriving DecidableEq

/-- Filename (kebab/snake case) to capitalized-word form, as in the
`extractComponentName` fallback. -/
def pascalCaseFromFileName (base : String) : String :=
  String.join (((splitChars (fun c => c == '-' || c == '_') base.toList).map String.mk).map capitalizeFirst)

/-- `ReactAnalyzer.extractComponentName`: a single traversal whose default- and
named-export visitors each overwrite the name variable; the filename (basename
without extension, passed as `fileBase`) is the fallback when no visitor
assigned a nonempty name. -/
def extractComponentName (fileBase : String) (ast : List JsNode) : String :=
  let fromExports := ast.foldl
    (fun acc node =>
      match node with
      | JsNode.exportDefaultIdent s => s
      | JsNode.exportDefaultFunc (some s) => s
      | JsNode.exportDefaultClass (some s) => s
      | JsNode.exportNamedFunc (some s) => s
      | _ => acc)
    ""
  if fromExports = "" then pascalCaseFromFileName fileBase else fromExports

/-- The name each export visitor would assign, if any. -/
def exportAssignedName : JsNode → Option String
  | JsNode.exportDefaultIdent s => some s
  | JsNode.exportDefaultFunc (some s) => some s
  | JsNode.exportDefaultClass (some s) => some s
  | JsNode.exportNamedFunc (some s) => some s
  | _ => none

/-- The last export-assigned name in document order (what the overwriting
traversal actually computes). -/
def lastExportName (ast : List JsNode) : Option String :=
  ast.reverse.findSome? exportAssignedName

/-- `propTypes` value to `(type, required)`: a one-level member expression
`X.y` yields type `X` and required iff `y` is `isRequired`; anything else
yields `("any", false)`. -/
def ptTypeRequired : Option (String × String) → String × Bool
  | some op => (op.1, op.2 == "isRequired")
  | none => ("any", false)

/-- JS object insertion: overwrite in place if the key exists, else append. -/
def recordInsert (rec : List (String × String × Bool)) (k : String)
    (v : String × Bool) : List (String × String × Bool) :=
  if rec.any (fun kv => kv.1 == k) then
    rec.map (fun kv => if kv.1 == k then (k, v) else kv)
  else rec ++ [(k, v)]

/-- First traversal of `extractProps`: collect the `X.propTypes = {...}`
descriptors into a name-keyed record. -/
def collectPropTypes (ast : List JsNode) : List (String × String × Bool) :=
  ast.foldl
    (fun rec node =>
      match node with
      | JsNode.propTypesAssign entries =>
        entries.foldl (fun r kv => recordInsert r kv.1 (ptTypeRequired kv.2)) rec
      | _ => rec)
    []

/-- The mapped prop type of a TS property signature. -/
def tsTypeName : TSTypeKind → String
  | TSTypeKind.str => "string"
  | TSTypeKind.num => "number"
  | TSTypeKind.boolean => "boolean"
  | TSTypeKind.func => "function"
  | TSTypeKind.objLit => "object"
  | TSTypeKind.arr => "array"
  | TSTypeKind.other => "any"

/-- A TS interface field as a `PropDefinition` (`required = !optional`). -/
def tsFieldToProp (f : TSField) : PropDefinition :=
  ⟨f.name, tsTypeName f.kind, !f.optional⟩

/-- Second traversal of `extractProps`: push the fields of every interface
whose name contains `Props` (case-sensitive `includes`), in document order. -/
def interfaceProps (ast : List JsNode) : List PropDefinition :=
  ast.foldl
    (fun ps node =>
      match node with
      | JsNode.tsInterfaceDecl nm fields =>
        if strIncludes nm "Props" then ps ++ fields.map tsFieldToProp else ps
      | _ => ps)
    []

/-- `ReactAnalyzer.extractFunctionComponentProps` over one destructuring
pattern: append each name not already present, as `any`/not-required. -/
def fillFromPattern (names : List String) (ps : List PropDefinition) : List PropDefinition :=
  names.foldl
    (fun acc nm =>
      if acc.any (fun p => p.name == nm) then acc
      else acc ++ [⟨nm, "any", false⟩])
    ps

/-- Third traversal of `extractProps`: every function declaration or arrow
function with an object-pattern first parameter fills missing prop names. -/
def fillFromPatterns (ast : List JsNode) (ps0 : List PropDefinition) : List PropDefinition :=
  ast.foldl
    (fun ps node =>
      match node with
      | JsNode.funcNode (some names) => fillFromPattern names ps
      | _ => ps)
    ps0

/--`ReactAnalyzer.extractProps`: interface props are pushed first, then the
collected propTypes record is appended, then destructuring patterns fill
names not already present. -/
def extractProps (ast : List JsNode) : List PropDefinition :=
  fillFromPatterns ast
    (interfaceProps ast ++ (collectPropTypes ast).map (fun kv => ⟨kv.1, kv.2.1, kv.2.2⟩))

/-- `ReactAnalyzer.createClickAction`. -/
def createClickAction (propName componentName : String) : UserAction :=
  let triggerPart := replaceFirst propName "onClick" ""
  let trigger := if triggerPart = "" then componentName else triggerPart
  let t := formatTriggerName trigger
  ⟨ActionType.click, trigger, "Click the " ++ t, "Performs the " ++ t ++ " action"⟩

/-- `ReactAnalyzer.createSubmitAction`. -/
def createSubmitAction (componentName : String) : UserAction :=
  let t := formatTriggerName componentName
  ⟨ActionType.submit, componentName, "Submit the " ++ t, "Sends the form data"⟩

/-- `ReactAnalyzer.createInputAction`. -/
def createInputAction (propName componentName : String) : UserAction :=
  let triggerPart := replaceFirst (replaceFirst propName "onChange" "") "onInput" ""
  let trigger := if triggerPart = "" then componentName else triggerPart
  let t := formatTriggerName trigger
  ⟨ActionType.input, trigger, "Enter information in the " ++ t, "Updates the input value"⟩

/-- `ReactAnalyzer.createNavigationAction`. -/
def createNavigationAction (componentName : String) : UserAction :=
  let t := formatTriggerName componentName
  ⟨ActionType.navigation, componentName, "Click the " ++ t, "Navigates to another page"⟩

/-- `ReactAnalyzer.extractUserActions`: an `on`-prefixed prop name longer than
two characters maps its lowercased suffix to click / submit / change-or-input
(anything else contributes nothing), and a `link`/`nav` name or a `to`/`href`
prop appends one navigation action. -/
def extractUserActions (component : ComponentMetadata) : List UserAction :=
  let fromProps := component.props.foldl
    (fun acc prop =>
      if strStartsWith prop.name "on" && decide (prop.name.length > 2) then
        let eventType := strToLower (strDrop prop.name 2)
        if eventType = "click" then acc ++ [createClickAction prop.name component.name]
        else if eventType = "submit" then acc ++ [createSubmitAction component.name]
        else if eventType = "change" || eventType = "input" then
          acc ++ [createInputAction prop.name component.name]
        else acc
      else acc)
    []
  if strIncludes (strToLower component.name) "link" ||
     strIncludes (strToLower component.name) "nav" ||
     component.props.any (fun p => p.name == "to" || p.name == "href") then
    fromProps ++ [createNavigationAction component.name]
  else fromProps

/-- `ReactAnalyzer.parseComponent` after parsing: name, props and user actions
from the syntax tree, then categorization and description.  `filePath` and
`fileBase` stand for the path and its extension-stripped basename; the NLP
context computed by `extractNlpContext` is passed in explicitly (it does not
influence the outputs, see the C10 theorem). -/
def parseComponent (customMappings : List (String × String)) (filePath fileBase : String)
    (ast : List JsNode) (nlpContext : NlpComponentContext) : ComponentMetadata :=
  let componentName := extractComponentName fileBase ast
  let props := extractProps ast
  let userActions := extractUserActions
    (ComponentMetadata.mk componentName filePath props [] [] ComponentCategory.display "")
  let semanticCategory := categorizeComponent componentName props nlpContext
  let description := generateDescription customMappings componentName props nlpContext
  ComponentMetadata.mk componentName filePath props [] userActions semanticCategory description

/-! ## Pattern/workflow detector (`PatternMatcher`,
`src/nlp/pattern-matcher.ts`).  Confidence arithmetic (IEEE doubles in the
source) is modelled by exact rationals. -/

/-- `UIPattern`: keywords, action phrases, description, user goal. -/
structure UIPattern where
  components : List String
  actions : List String
  description : String
  userGoal : String
deriving DecidableEq

/-- `PatternMatcher.patterns`, in declaration (= iteration) order. -/
def uiPatterns : List (String × UIPattern) :=
  [("authentication",
    ⟨["login", "signin", "register", "signup", "password", "auth"],
     ["submit credentials", "create account", "reset password"],
     "User authentication flow", "Access your account securely"⟩),
   ("search",
    ⟨["search", "filter", "results", "query"],
     ["enter search term", "apply filter", "view results"],
     "Search and filtering functionality", "Find specific information"⟩),
   ("form-submission",
    ⟨["form", "input", "submit", "field", "validation"],
     ["fill form", "validate input", "submit data"],
     "Data entry and submission", "Submit information"⟩),
   ("crud",
    ⟨["create", "add", "edit", "update", "delete", "remove", "list"],
     ["create new", "update existing", "delete item", "view items"],
     "Create, Read, Update, Delete operations", "Manage your data"⟩),
   ("navigation",
    ⟨["nav", "menu", "sidebar", "header", "footer", "link", "route"],
     ["navigate to", "open page", "go to section"],
     "Navigation through the application", "Move between different sections"⟩),
   ("dashboard",
    ⟨["dashboard", "overview", "stats", "analytics", "widgets"],
     ["view statistics", "monitor data", "check status"],
     "Overview and analytics display", "Get a comprehensive view of your data"⟩),
   ("settings",
    ⟨["settings", "preferences", "config", "options", "profile"],
     ["change settings", "update preferences", "configure options"],
     "User preferences and configuration", "Customize your experience"⟩),
   ("notification",
    ⟨["notification", "alert", "message", "toast"],
     ["view notifications", "mark as read", "dismiss alert"],
     "User notification system", "Stay informed about important updates"⟩),
   ("cart-checkout",
    ⟨["cart", "basket", "checkout", "payment", "order"],
     ["add to cart", "remove item", "complete purchase"],
     "Shopping cart and checkout process", "Complete your purchase"⟩),
   ("wizard",
    ⟨["wizard", "step", "progress", "multi-step", "flow"],
     ["proceed to next step", "go back", "complete process"],
     "Step-by-step guided process", "Complete a multi-step process"⟩)]

/-- `DetectedPattern` with rational confidence. -/
structure DetectedPattern where
  name : String
  description : String
  userGoal : String
  components : List ComponentMetadata
  actions : List UserAction
  confidence : ℚ

/-- `PatternMatcher.matchesPattern`. -/
def matchesPattern (name : String) (patternKeywords : List String) : Bool :=
  patternKeywords.any (fun keyword => strIncludes name keyword)

/-- `PatternMatcher.findMatchingActions`. -/
def findMatchingActions (actions : List UserAction) (patternActions : List String) :
    List UserAction :=
  actions.filter (fun action =>
    patternActions.any (fun pat =>
      strIncludes (strToLower action.description) (strToLower pat) ||
      strIncludes (strToLower action.outcome) (strToLower pat)))

/-- `PatternMatcher.calculateConfidence`: 0.7 × component ratio + 0.3 × action
ratio (the action ratio is 0 when no action matched). -/
def calculateConfidence (matchingComponents : List ComponentMetadata)
    (matchingActions : List UserAction) (pattern : UIPattern) : ℚ :=
  let componentScore : ℚ := (matchingComponents.length : ℚ) / (pattern.components.length : ℚ)
  let actionScore : ℚ :=
    if matchingActions.length > 0 then
      (matchingActions.length : ℚ) / (pattern.actions.length : ℚ)
    else 0
  componentScore * (7 / 10) + actionScore * (3 / 10)

/-- Stable insertion into a descending-confidence list: the inserted element
goes after every earlier element with greater-or-equal confidence. -/
def insertByConfidenceDesc (a : DetectedPattern) :
    List DetectedPattern → List DetectedPattern
  | [] => [a]
  | b :: l =>
    if b.confidence < a.confidence then a :: b :: l
    else b :: insertByConfidenceDesc a l

/-- Stable sort by descending confidence.  JS `Array.prototype.sort` with the
comparator `(a, b) => b.confidence - a.confidence` is required to produce the
stably descending-sorted permutation, which is unique; it is computed here by
stable insertion. -/
def sortByConfidenceDesc (l : List DetectedPattern) : List DetectedPattern :=
  l.foldr insertByConfidenceDesc []

/-- `PatternMatcher.detectPatterns`: per pattern, components whose lowercased
name contains a keyword; if any, the matching actions and a confidence; the
result is stably sorted by descending confidence. -/
def detectPatterns (components : List ComponentMetadata) : List DetectedPattern :=
  let detected := uiPatterns.filterMap (fun np =>
    let matchingComponents := components.filter
      (fun c => matchesPattern (strToLower c.name) np.2.components)
    if matchingComponents.length > 0 then
      let matchingActions := findMatchingActions
        ((matchingComponents.map (fun c => c.userActions)).flatten) np.2.actions
      some ⟨np.1, np.2.description, np.2.userGoal, matchingComponents, matchingActions,
            calculateConfidence matchingComponents matchingActions np.2⟩
    else none)
  sortByConfidenceDesc detected

/-- `WorkflowStep`. -/
structure WorkflowStep where
  name : String
  description : String
  actions : List UserAction

/-- `Workflow`. -/
structure Workflow where
  name : String
  description : String
  steps : List WorkflowStep
  components : List ComponentMetadata

/-- `PatternMatcher.hasAuthenticationFlow`. -/
def hasAuthenticationFlow (components : List ComponentMetadata)
    (actions : List UserAction) : Bool :=
  (components.any (fun c =>
    strIncludes (strToLower c.name) "login" ||
    strIncludes (strToLower c.name) "signin" ||
    strIncludes (strToLower c.name) "register")) &&
  (actions.any (fun a =>
    strIncludes (strToLower a.description) "sign in" ||
    strIncludes (strToLower a.description) "log in" ||
    strIncludes (strToLower a.description) "create account"))

/-- `PatternMatcher.hasSearchFlow`. -/
def hasSearchFlow (components : List ComponentMetadata)
    (actions : List UserAction) : Bool :=
  (components.any (fun c =>
    strIncludes (strToLower c.name) "search" ||
    strIncludes (strToLower c.name) "filter" ||
    strIncludes (strToLower c.name) "results")) &&
  (actions.any (fun a =>
    strIncludes (strToLower a.description) "search" ||
    strIncludes (strToLower a.description) "filter" ||
    strIncludes (strToLower a.description) "find"))

/-- `PatternMatcher.hasFormSubmissionFlow`. -/
def hasFormSubmissionFlow (components : List ComponentMetadata)
    (actions : List UserAction) : Bool :=
  (components.any (fun c =>
    strIncludes (strToLower c.name) "form" ||
    c.semanticCategory == ComponentCategory.form)) &&
  (actions.any (fun a =>
    a.type == ActionType.submit ||
    strIncludes (strToLower a.description) "submit" ||
    strIncludes (strToLower a.description) "save"))

/-- `PatternMatcher.hasCRUDFlow`. -/
def hasCRUDFlow (components : List ComponentMetadata)
    (actions : List UserAction) : Bool :=
  (components.any (fun c =>
    strIncludes (strToLower c.name) "create" ||
    strIncludes (strToLower c.name) "edit" ||
    strIncludes (strToLower c.name) "delete" ||
    strIncludes (strToLower c.name) "list")) &&
  (actions.any (fun a =>
    strIncludes (strToLower a.description) "create" ||
    strIncludes (strToLower a.description) "add" ||
    strIncludes (strToLower a.description) "edit" ||
    strIncludes (strToLower a.description) "update" ||
    strIncludes (strToLower a.description) "delete" ||
    strIncludes (strToLower a.description) "remove"))

/-- `PatternMatcher.hasCheckoutFlow`. -/
def hasCheckoutFlow (components : List ComponentMetadata)
    (actions : List UserAction) : Bool :=
  (components.any (fun c =>
    strIncludes (strToLower c.name) "cart" ||
    strIncludes (strToLower c.name) "checkout" ||
    strIncludes (strToLower c.name) "payment")) &&
  (actions.any (fun a =>
    strIncludes (strToLower a.description) "add to cart" ||
    strIncludes (strToLower a.description) "checkout" ||
    strIncludes (strToLower a.description) "payment" ||
    strIncludes (strToLower a.description) "purchase"))

/-- `PatternMatcher.createAuthenticationWorkflow`. -/
def createAuthenticationWorkflow (components : List ComponentMetadata)
    (actions : List UserAction) : Workflow :=
  ⟨"Authentication", "Sign in or create a new account",
   [⟨"Enter credentials", "Enter your username/email and password",
     actions.filter (fun a =>
       a.type == ActionType.input &&
       (strIncludes (strToLower a.trigger) "username" ||
        strIncludes (strToLower a.trigger) "email" ||
        strIncludes (strToLower a.trigger) "password"))⟩,
    ⟨"Submit credentials", "Click the sign in button to access your account",
     actions.filter (fun a =>
       a.type == ActionType.submit ||
       (a.type == ActionType.click &&
        (strIncludes (strToLower a.trigger) "login" ||
         strIncludes (strToLower a.trigger) "signin")))⟩],
   components.filter (fun c =>
     strIncludes (strToLower c.name) "login" ||
     strIncludes (strToLower c.name) "signin" ||
     strIncludes (strToLower c.name) "auth")⟩

/-- `PatternMatcher.createSearchWorkflow`. -/
def createSearchWorkflow (components : List ComponentMetadata)
    (actions : List UserAction) : Workflow :=
  ⟨"Search and Filter", "Find and narrow down results",
   [⟨"Enter search term", "Type what you want to find in the search box",
     actions.filter (fun a =>
       a.type == ActionType.input && strIncludes (strToLower a.trigger) "search")⟩,
    ⟨"Apply filters", "Narrow down results by selecting specific criteria",
     actions.filter (fun a =>
       strIncludes (strToLower a.description) "filter" ||
       strIncludes (strToLower a.trigger) "filter")⟩,
    ⟨"View results", "Browse through the matching items",
     actions.filter (fun a =>
       strIncludes (strToLower a.outcome) "results" ||
       strIncludes (strToLower a.outcome) "found")⟩],
   components.filter (fun c =>
     strIncludes (strToLower c.name) "search" ||
     strIncludes (strToLower c.name) "filter" ||
     strIncludes (strToLower c.name) "results")⟩

/-- `PatternMatcher.createFormWorkflow`. -/
def createFormWorkflow (components : List ComponentMetadata)
    (actions : List UserAction) : Workflow :=
  ⟨"Form Submission", "Enter and submit information",
   [⟨"Fill in the form", "Enter the required information in the form fields",
     actions.filter (fun a => a.type == ActionType.input)⟩,
    ⟨"Validate information", "Ensure all information is correct and complete",
     actions.filter (fun a =>
       strIncludes (strToLower a.description) "validate" ||
       strIncludes (strToLower a.description) "check")⟩,
    ⟨"Submit the form", "Send the information by clicking the submit button",
     actions.filter (fun a =>
       a.type == ActionType.submit ||
       (a.type == ActionType.click &&
        (strIncludes (strToLower a.trigger) "submit" ||
         strIncludes (strToLower a.trigger) "save")))⟩],
   components.filter (fun c =>
     c.semanticCategory == ComponentCategory.form ||
     strIncludes (strToLower c.name) "form")⟩

/-- `PatternMatcher.createCRUDWorkflow`. -/
def createCRUDWorkflow (components : List ComponentMetadata)
    (actions : List UserAction) : Workflow :=
  ⟨"Manage Items", "Create, view, edit and delete items",
   [⟨"View items", "Browse through the available items",
     actions.filter (fun a =>
       strIncludes (strToLower a.outcome) "view" ||
       strIncludes (strToLower a.outcome) "list" ||
       strIncludes (strToLower a.outcome) "display")⟩,
    ⟨"Create new item", "Add a new item by filling in the required information",
     actions.filter (fun a =>
       strIncludes (strToLower a.description) "create" ||
       strIncludes (strToLower a.description) "add" ||
       strIncludes (strToLower a.description) "new")⟩,
    ⟨"Edit item", "Modify an existing item",
     actions.filter (fun a =>
       strIncludes (strToLower a.description) "edit" ||
       strIncludes (strToLower a.description) "update" ||
       strIncludes (strToLower a.description) "modify")⟩,
    ⟨"Delete item", "Remove an item that is no longer needed",
     actions.filter (fun a =>
       strIncludes (strToLower a.description) "delete" ||
       strIncludes (strToLower a.description) "remove")⟩],
   components.filter (fun c =>
     strIncludes (strToLower c.name) "create" ||
     strIncludes (strToLower c.name) "edit" ||
     strIncludes (strToLower c.name) "delete" ||
     strIncludes (strToLower c.name) "list")⟩

/-- `PatternMatcher.createCheckoutWorkflow`. -/
def createCheckoutWorkflow (components : List ComponentMetadata)
    (actions : List UserAction) : Workflow :=
  ⟨"Shopping Checkout", "Complete a purchase",
   [⟨"Add items to cart", "Select items and add them to your shopping cart",
     actions.filter (fun a =>
       strIncludes (strToLower a.description) "add to cart" ||
       strIncludes (strToLower a.outcome) "added to cart")⟩,
    ⟨"Review cart", "Check the items in your cart and make any adjustments",
     actions.filter (fun a =>
       strIncludes (strToLower a.outcome) "view cart" ||
       strIncludes (strToLower a.trigger) "cart")⟩,
    ⟨"Proceed to checkout", "Begin the checkout process",
     actions.filter (fun a =>
       strIncludes (strToLower a.description) "checkout" ||
       strIncludes (strToLower a.outcome) "checkout")⟩,
    ⟨"Enter shipping information", "Provide your shipping details",
     actions.filter (fun a =>
       strIncludes (strToLower a.description) "shipping" ||
       strIncludes (strToLower a.trigger) "address")⟩,
    ⟨"Enter payment information", "Provide your payment details",
     actions.filter (fun a =>
       strIncludes (strToLower a.description) "payment" ||
       strIncludes (strToLower a.trigger) "payment" ||
       strIncludes (strToLower a.trigger) "credit card")⟩,
    ⟨"Complete purchase", "Finalize your order",
     actions.filter (fun a =>
       strIncludes (strToLower a.description) "complete" ||
       strIncludes (strToLower a.description) "purchase" ||
       strIncludes (strToLower a.description) "order")⟩],
   components.filter (fun c =>
     strIncludes (strToLower c.name) "cart" ||
     strIncludes (strToLower c.name) "checkout" ||
     strIncludes (strToLower c.name) "payment" ||
     strIncludes (strToLower c.name) "order")⟩

/-- `PatternMatcher.detectWorkflows`: each of the five workflow kinds is
emitted, in the fixed order, when its `has*Flow` test passes on the whole
project's components and (global) action set. -/
def detectWorkflows (components : List ComponentMetadata) : List Workflow :=
  let allActions := (components.map (fun c => c.userActions)).flatten
  (if hasAuthenticationFlow components allActions then
    [createAuthenticationWorkflow components allActions] else []) ++
  (if hasSearchFlow components allActions then
    [createSearchWorkflow components allActions] else []) ++
  (if hasFormSubmissionFlow components allActions then
    [createFormWorkflow components allActions] else []) ++
  (if hasCRUDFlow components allActions then
    [createCRUDWorkflow components allActions] else []) ++
  (if hasCheckoutFlow components allActions then
    [createCheckoutWorkflow components allActions] else [])

/-! ## Content-hash cache and change-set builder
(`CacheManager`, `src/cache/cache-manager.ts`, and the `analyze` command of
`src/cli/index.ts`).

The metadata cache directory is an association list of entries keyed by the
relative source path (the on-disk filename is the MD5 of that path; the MD5
is injective on the paths in scope, per spec section 4.4). -/

/-- One persisted cache file: its key (relative source path) and the stored
`{ sourceFileHash, componentMetadata }` object. -/
structure CacheEntry where
  key : String
  sourceFileHash : String
  componentMetadata : ComponentMetadata

/-- The cache directory contents. -/
abbrev Cache := List CacheEntry

/-- Read the entry stored under a relative path, if present
(`CacheManager.getCachedComponent` on a well-formed store). -/
def cacheLookup (sourceFilePath : String) (cache : Cache) : Option CacheEntry :=
  cache.find? (fun e => e.key == sourceFilePath)

/-- `CacheManager.cacheComponent`: write (create or overwrite) the entry
stored under `e.key`. -/
def cacheWrite : Cache → CacheEntry → Cache
  | [], e => [e]
  | x :: xs, e => if x.key == e.key then e :: xs else x :: cacheWrite xs e

/-- `CacheManager.removeCachedComponent`: delete the entry stored under a
path (a no-op when absent). -/
def cacheRemove (cache : Cache) (sourceFilePath : String) : Cache :=
  cache.filter (fun e => !(e.key == sourceFilePath))

/-- `CacheManager.getAllCachedFilePaths`: reads each stored entry and
returns `componentMetadata.filePath` — the path stored inside the entry,
not the key the entry is filed under. -/
def getAllCachedFilePaths (cache : Cache) : List String :=
  cache.map (fun e => e.componentMetadata.filePath)

/-- The external primitives of the analyze pipeline:
`fileHash` is the MD5 of a file's content
(`CacheManager.calculateFileContentHash`), `extract` is the analyzer's
`parseComponent` as a deterministic function of relative path and content,
`rel` is `path.relative(projectRoot, ·)`, and `hashComponents`/
`hashPatterns`/`hashWorkflows` are the MD5-of-JSON artifact fingerprints
(`calculateJsonHash`). -/
structure AnalyzeEnv where
  fileHash : String → String
  extract : String → String → ComponentMetadata
  rel : String → String
  hashComponents : List ComponentMetadata → String
  hashPatterns : List DetectedPattern → String
  hashWorkflows : List Workflow → String

/-- The persistent state the analyze command touches: the cache directory
and the three parsed artifact files (absent on a first run). -/
structure AnalyzeState where
  cache : Cache
  artComponents : Option (List ComponentMetadata)
  artPatterns : Option (List DetectedPattern)
  artWorkflows : Option (List Workflow)

/-- `changeset.json`. -/
structure Changeset where
  newComponents : List String
  changedComponents : List String
  deletedComponents : List String
  componentsJsonChanged : Bool
  patternsJsonChanged : Bool
  workflowsJsonChanged : Bool
deriving DecidableEq

/-- The normalization applied to a cache hit's metadata: a legacy absolute
`filePath` is replaced by its project-relative form. -/
def normalizeMeta (rel : String → String) (m : ComponentMetadata) : ComponentMetadata :=
  if isAbsolutePath m.filePath then m.withFilePath (rel m.filePath) else m

/-- Result of processing one scanned file. -/
structure ProcessResult where
  pushed : ComponentMetadata
  changedOrNew : Bool
  cache : Cache

/-- The per-file body of the analyze loop (`src/cli/index.ts` lines
130-168): hash the current content; a stored entry with exactly that hash
is a hit whose stored metadata is reused (normalized); otherwise the file
is (re-)extracted, its `filePath` forced relative, and the entry
(over)written. -/
def processFile (env : AnalyzeEnv) (cache : Cache) (relativeFilePath content : String) :
    ProcessResult :=
  let currentContentHash := env.fileHash content
  match cacheLookup relativeFilePath cache with
  | some cachedData =>
    if cachedData.sourceFileHash == currentContentHash then
      ⟨normalizeMeta env.rel cachedData.componentMetadata, false, cache⟩
    else
      let metadataToCache :=
        (env.extract relativeFilePath content).withFilePath relativeFilePath
      ⟨metadataToCache, true,
       cacheWrite cache ⟨relativeFilePath, currentContentHash, metadataToCache⟩⟩
  | none =>
    let metadataToCache :=
      (env.extract relativeFilePath content).withFilePath relativeFilePath
    ⟨metadataToCache, true,
     cacheWrite cache ⟨relativeFilePath, currentContentHash, metadataToCache⟩⟩

/-- The analyze loop over the scanned files, given as
(relative path, content) pairs in scan order. -/
def runLoop (env : AnalyzeEnv) (cache : Cache) :
    List (String × String) → List ComponentMetadata × List String × Cache
  | [] => ([], [], cache)
  | (p, content) :: rest =>
    let r := processFile env cache p content
    let (ms, ch, cf) := runLoop env r.cache rest
    (r.pushed :: ms, (if r.changedOrNew then [p] else []) ++ ch, cf)

/-- Everything the analyze command leaves behind. -/
structure RunResult where
  components : List ComponentMetadata
  patterns : List DetectedPattern
  workflows : List Workflow
  changeset : Changeset
  state : AnalyzeState

/-- The analyze command (`src/cli/index.ts` lines 120-257): the per-file
cache loop, deletion of cache entries whose stored path was not scanned,
the new/changed split of the re-extracted paths, pattern and workflow
detection, and fingerprint-guarded artifact rewriting. -/
def runAnalyze (env : AnalyzeEnv) (files : List (String × String))
    (st : AnalyzeState) : RunResult :=
  let initialCachedRelativePaths := getAllCachedFilePaths st.cache
  let processedRelativeFilePaths := files.map Prod.fst
  let (components, changedOrNewRelativeFilePaths, cacheAfterLoop) :=
    runLoop env st.cache files
  let deletedRelativeFilePaths := initialCachedRelativePaths.filter
    (fun p => !(includesStr processedRelativeFilePaths p))
  let cacheAfterDelete := deletedRelativeFilePaths.foldl cacheRemove cacheAfterLoop
  let newComponentsPaths := changedOrNewRelativeFilePaths.filter
    (fun p => !(includesStr initialCachedRelativePaths p))
  let changedComponentsPaths := changedOrNewRelativeFilePaths.filter
    (fun p => includesStr initialCachedRelativePaths p)
  let patterns := detectPatterns components
  let workflows := detectWorkflows components
  let componentsJsonChanged :=
    match st.artComponents with
    | none => true
    | some old => !(env.hashComponents old == env.hashComponents components)
  let patternsJsonChanged :=
    match st.artPatterns with
    | none => true
    | some old => !(env.hashPatterns old == env.hashPatterns patterns)
  let workflowsJsonChanged :=
    match st.artWorkflows with
    | none => true
    | some old => !(env.hashWorkflows old == env.hashWorkflows workflows)
  { components := components
    patterns := patterns
    workflows := workflows
    changeset :=
      { newComponents := newComponentsPaths
        changedComponents := changedComponentsPaths
        deletedComponents := deletedRelativeFilePaths
        componentsJsonChanged := componentsJsonChanged
        patternsJsonChanged := patternsJsonChanged
        workflowsJsonChanged := workflowsJsonChanged }
    state :=
      { cache := cacheAfterDelete
        artComponents := if componentsJsonChanged then some components else st.artComponents
        artPatterns := if patternsJsonChanged then some patterns else st.artPatterns
        artWorkflows := if workflowsJsonChanged then some workflows else st.artWorkflows } }

/-! ## Disk-level view of one cache file
(`CacheManager.getCachedComponent`, lines 205-230): raw persisted bytes may
fail `JSON.parse`, or parse to a value missing the required fields. -/

/-- A persisted cache file as `getCachedComponent` sees it: either the
content is not valid JSON (`JSON.parse` throws), or it parses to a value
with a truthiness flag, an optional string `sourceFileHash` field (present
iff the field exists and is a string) and an optional `componentMetadata`
field (present iff the field is not `undefined`). -/
inductive CacheFileOnDisk where
  | malformed
  | parsedAs (truthy : Bool) (sourceFileHash : Option String)
      (componentMetadata : Option ComponentMetadata)

/-- Outcome of a disk-level cache read: the returned value (null = `none`)
and whether the cache file was deleted by the read. -/
structure DiskReadOutcome where
  result : Option (String × ComponentMetadata)
  fileDeleted : Bool

/-- `CacheManager.getCachedComponent`: an absent file is a plain miss; a
file that fails `JSON.parse` lands in the catch block, which logs and
returns null WITHOUT deleting; a parsed value failing the field validation
is discarded, the file is removed, and null is returned. -/
def getCachedComponent : Option CacheFileOnDisk → DiskReadOutcome
  | none => ⟨none, false⟩
  | some CacheFileOnDisk.malformed => ⟨none, false⟩
  | some (CacheFileOnDisk.parsedAs truthy h m) =>
    match truthy, h, m with
    | true, some hs, some mm => ⟨some (hs, mm), false⟩
    | _, _, _ => ⟨none, true⟩

/-! # Theorems -/

/-! ## Helper lemmas -/

theorem any_const_false {α : Type} (l : List α) : (l.any fun _ => false) = false := by
  induction l with
  | nil => rfl
  | cons a l ih => simp [List.any, ih]

theorem mem_insertByConfidenceDesc (a b : DetectedPattern) (l : List DetectedPattern) :
    a ∈ insertByConfidenceDesc b l ↔ a = b ∨ a ∈ l := by
  induction l with
  | nil => simp [insertByConfidenceDesc]
  | cons c l ih =>
    simp only [insertByConfidenceDesc]
    split
    · simp
    · simp [ih]
      tauto

theorem mem_sortByConfidenceDesc (a : DetectedPattern) (l : List DetectedPattern) :
    a ∈ sortByConfidenceDesc l ↔ a ∈ l := by
  induction l with
  | nil => simp [sortByConfidenceDesc]
  | cons c l ih =>
    simp only [sortByConfidenceDesc, List.foldr_cons] at *
    rw [mem_insertByConfidenceDesc, ih]
    simp

/-- The pattern table is keyed by its names. -/
theorem uiPatterns_name_key :
    ∀ x ∈ uiPatterns, ∀ y ∈ uiPatterns, x.1 = y.1 → x.2 = y.2 := by
  decide

/-- Every pattern in the table has a nonempty keyword list and a nonempty
action-phrase list. -/
theorem uiPatterns_lengths_pos :
    ∀ x ∈ uiPatterns, 0 < x.2.components.length ∧ 0 < x.2.actions.length := by
  decide

theorem calculateConfidence_nonneg (mc : List ComponentMetadata) (ma : List UserAction)
    (pat : UIPattern) : 0 ≤ calculateConfidence mc ma pat := by
  unfold calculateConfidence
  have h1 : (0:ℚ) ≤ (mc.length : ℚ) / (pat.components.length : ℚ) :=
    div_nonneg (by positivity) (by positivity)
  have h2 : (0:ℚ) ≤
      (if ma.length > 0 then (ma.length : ℚ) / (pat.actions.length : ℚ) else 0) := by
    split
    · exact div_nonneg (by positivity) (by positivity)
    · exact le_refl 0
  nlinarith

theorem calculateConfidence_le_one (mc : List ComponentMetadata) (ma : List UserAction)
    (pat : UIPattern) (hcpos : 0 < pat.components.length) (hapos : 0 < pat.actions.length)
    (hc : mc.length ≤ pat.components.length) (ha : ma.length ≤ pat.actions.length) :
    calculateConfidence mc ma pat ≤ 1 := by
  unfold calculateConfidence
  have hcq : (0:ℚ) < (pat.components.length : ℚ) := by exact_mod_cast hcpos
  have haq : (0:ℚ) < (pat.actions.length : ℚ) := by exact_mod_cast hapos
  have h1 : (mc.length : ℚ) / (pat.components.length : ℚ) ≤ 1 :=
    (div_le_one hcq).mpr (by exact_mod_cast hc)
  have h2 : (if ma.length > 0 then (ma.length : ℚ) / (pat.actions.length : ℚ) else 0) ≤ 1 := by
    split
    · exact (div_le_one haq).mpr (by exact_mod_cast ha)
    · norm_num
  have h3 : (0:ℚ) ≤ (mc.length : ℚ) / (pat.components.length : ℚ) :=
    div_nonneg (by positivity) (by positivity)
  have h4 : (0:ℚ) ≤
      (if ma.length > 0 then (ma.length : ℚ) / (pat.actions.length : ℚ) else 0) := by
    split
    · exact div_nonneg (by positivity) (by positivity)
    · exact le_refl 0
  nlinarith

/-- Every detected pattern arises from a table entry, with its matched
components, matched actions and confidence. -/
theorem detectPatterns_mem_elim (components : List ComponentMetadata)
    (p : DetectedPattern) (hp : p ∈ detectPatterns components) :
    ∃ np ∈ uiPatterns,
      p = ⟨np.1, np.2.description, np.2.userGoal,
           components.filter (fun c => matchesPattern (strToLower c.name) np.2.components),
           findMatchingActions
             (((components.filter
                 (fun c => matchesPattern (strToLower c.name) np.2.components)).map
               (fun c => c.userActions)).flatten) np.2.actions,
           calculateConfidence
             (components.filter (fun c => matchesPattern (strToLower c.name) np.2.components))
             (findMatchingActions
               (((components.filter
                   (fun c => matchesPattern (strToLower c.name) np.2.components)).map
                 (fun c => c.userActions)).flatten) np.2.actions)
             np.2⟩ := by
  unfold detectPatterns at hp
  rw [mem_sortByConfidenceDesc] at hp
  rcases List.mem_filterMap.mp hp with ⟨np, hnp, heq⟩
  refine ⟨np, hnp, ?_⟩
  by_cases hl :
      0 < (components.filter (fun c => matchesPattern (strToLower c.name) np.2.components)).length
  · rw [if_pos hl] at heq
    exact (Option.some.injEq _ _ ▸ heq).symm
  · rw [if_neg hl] at heq
    exact absurd heq (by simp)

/-! ## C10: the classifier ignores the additional context -/

/-- C10: the category returned by `categorizeComponent` depends only on the
component name and the props: two calls with the same name and props but
arbitrary, differing `additionalContext` arguments return the same
category. -/
theorem claim_C10 (componentName : String) (props : List PropDefinition)
    (ctx1 ctx2 : NlpComponentContext) :
    categorizeComponent componentName props ctx1 = categorizeComponent componentName props ctx2 :=
  rfl

/-! ## C6: first-match-wins categorization with a LAYOUT default -/

/-- C6: for every name and prop list the classifier computes the
first-match-wins evaluation of the ordered rule table
FORM → NAVIGATION → INTERACTION → DISPLAY (each rule a case-insensitive
substring test on the name keywords or the prop keywords), with LAYOUT when
no rule matches; in particular the result is always exactly one of the five
categories. -/
theorem claim_C6 (componentName : String) (props : List PropDefinition)
    (ctx : NlpComponentContext) :
    categorizeComponent componentName props ctx = specCategorize componentName props ∧
    (categorizeComponent componentName props ctx = ComponentCategory.form ∨
     categorizeComponent componentName props ctx = ComponentCategory.navigation ∨
     categorizeComponent componentName props ctx = ComponentCategory.interaction ∨
     categorizeComponent componentName props ctx = ComponentCategory.display ∨
     categorizeComponent componentName props ctx = ComponentCategory.layout) := by
  constructor
  · simp only [categorizeComponent, specCategorize, categoryRules, firstMatchCategory,
      ruleMatches, List.any_cons, List.any_nil, Bool.or_false, Bool.or_assoc, any_const_false]
  · cases categorizeComponent componentName props ctx <;> simp

end UserLens
namespace UserLens

/-! ## C1: confidence bounds -/

section

attribute [local semireducible] Rat.add Rat.mul Rat.inv

/-- C1 (amended): every detected pattern's confidence is nonnegative, and it
is at most 1 provided the number of matched components does not exceed the
pattern's keyword-list length and the number of matched actions does not
exceed its action-phrase-list length.  (The unconditional upper bound of the
original claim is false, see the counterexample.) -/
theorem claim_C1 (components : List ComponentMetadata) (p : DetectedPattern)
    (hp : p ∈ detectPatterns components) :
    0 ≤ p.confidence ∧
      ∀ pat : UIPattern, (p.name, pat) ∈ uiPatterns →
        p.components.length ≤ pat.components.length →
        p.actions.length ≤ pat.actions.length →
        p.confidence ≤ 1 := by
  rcases detectPatterns_mem_elim components p hp with ⟨np, hnp, hpe⟩
  constructor
  · rw [hpe]
    exact calculateConfidence_nonneg _ _ _
  · intro pat hpat hc ha
    have hname : p.name = np.1 := by rw [hpe]
    have hnp2 : np.2 = pat := by
      have := uiPatterns_name_key np hnp (np.1, pat) (hname ▸ hpat) rfl
      exact this
    have hpos := uiPatterns_lengths_pos np hnp
    have hcomp : p.components =
        components.filter (fun c => matchesPattern (strToLower c.name) np.2.components) := by
      rw [hpe]
    have hact : p.actions =
        findMatchingActions
          (((components.filter
              (fun c => matchesPattern (strToLower c.name) np.2.components)).map
            (fun c => c.userActions)).flatten) np.2.actions := by
      rw [hpe]
    have hconf : p.confidence = calculateConfidence p.components p.actions np.2 := by
      rw [hpe]
    rw [hconf]
    exact calculateConfidence_le_one _ _ _ hpos.1 hpos.2
      (hnp2 ▸ hc) (hnp2 ▸ ha)

/-- C1 counterexample: with nine components named `auth` (all matching the
six authentication keywords) the detected authentication pattern has
confidence 0.7 × 9/6 = 1.05 > 1, so the claimed unconditional bound
`confidence ≤ 1` is false. -/
theorem claim_C1_counterexample :
    ¬ (∀ p ∈ detectPatterns
        (List.replicate 9 (ComponentMetadata.mk "auth" "f" [] [] [] ComponentCategory.layout "")),
        0 ≤ p.confidence ∧ p.confidence ≤ 1) := by
  decide

/-- Concrete input for the C1 witness: one component named `Login`. -/
def c1InputComponents : List ComponentMetadata :=
  [ComponentMetadata.mk "Login" "src/Login.tsx" [] [] [] ComponentCategory.form ""]

/-- The pattern detected on `c1InputComponents`. -/
def c1Detected : DetectedPattern :=
  ⟨"authentication", "User authentication flow", "Access your account securely",
   [ComponentMetadata.mk "Login" "src/Login.tsx" [] [] [] ComponentCategory.form ""],
   [], (1 : ℚ) / 6 * (7 / 10) + 0 * (3 / 10)⟩

/-- C1 witness: the amended theorem applied to the concrete one-component
input, with every hypothesis discharged. -/
theorem claim_C1_witness :
    0 ≤ c1Detected.confidence ∧
      ∀ pat : UIPattern, (c1Detected.name, pat) ∈ uiPatterns →
        c1Detected.components.length ≤ pat.components.length →
        c1Detected.actions.length ≤ pat.actions.length →
        c1Detected.confidence ≤ 1 := by
  have hd : detectPatterns c1InputComponents = [c1Detected] := rfl
  exact claim_C1 c1InputComponents c1Detected (hd ▸ List.mem_singleton.mpr rfl)

end

end UserLens
namespace UserLens

/-! ## C5: the LoginForm scenario -/

/-- The traversal events of the Scenario A source file: an arrow-function
component destructuring `{ onLogin, redirectUrl }`, two handler functions
whose first parameter is a plain identifier, and `export default LoginForm`. -/
def scenarioAAst : List JsNode :=
  [JsNode.funcNode (some ["onLogin", "redirectUrl"]),
   JsNode.funcNode none,
   JsNode.funcNode none,
   JsNode.exportDefaultIdent "LoginForm"]

/-- The NLP context of the Scenario A file: a form tag, a button with the
text `Sign In`, and the component's doc comment. -/
def scenarioACtx : NlpComponentContext :=
  ⟨"src/components/LoginForm.jsx", [], ["Sign In"], [], [], [],
   ["Login form component for user authentication"], ["react"],
   ["div", "form", "label", "input", "button"]⟩

/-- The metadata extracted from the Scenario A file. -/
def scenarioAResult : ComponentMetadata :=
  parseComponent [] "src/components/LoginForm.jsx" "LoginForm" scenarioAAst scenarioACtx

/-- C5 counterexample: on the Scenario A file the extractor produces NO user
actions at all — in particular no submit action — because the prop `onLogin`
has the `on`-suffix `login`, which maps to none of click/submit/change/input,
and the name `LoginForm` triggers no navigation action.  This refutes the
claim that the scenario yields a submit action. -/
theorem claim_C5_counterexample :
    (scenarioAResult.userActions.any (fun a => a.type == ActionType.submit)) = false ∧
    scenarioAResult.userActions = [] := by
  decide

/-- C5 (amended): the Scenario A file yields name `LoginForm`, props
including `onLogin` and `redirectUrl`, an EMPTY user-action list (the claim's
submit action is not produced), semantic category FORM, and a description
containing `Sign in`. -/
theorem claim_C5 :
    scenarioAResult.name = "LoginForm" ∧
    (scenarioAResult.props.map (fun p => p.name)) = ["onLogin", "redirectUrl"] ∧
    scenarioAResult.userActions = [] ∧
    scenarioAResult.semanticCategory = ComponentCategory.form ∧
    scenarioAResult.description = "Sign in to your account" ∧
    strIncludes scenarioAResult.description "Sign in" = true := by
  decide

/-! ## C7: component-name resolution -/

/-- The foldl step of `extractComponentName` is an overwrite by
`exportAssignedName`. -/
theorem extractComponentName_step (acc : String) (node : JsNode) :
    (match node with
      | JsNode.exportDefaultIdent s => s
      | JsNode.exportDefaultFunc (some s) => s
      | JsNode.exportDefaultClass (some s) => s
      | JsNode.exportNamedFunc (some s) => s
      | _ => acc) = (exportAssignedName node).getD acc := by
  cases node with
  | exportDefaultIdent s => rfl
  | exportDefaultFunc o => cases o <;> rfl
  | exportDefaultClass o => cases o <;> rfl
  | exportNamedFunc o => cases o <;> rfl
  | propTypesAssign e => rfl
  | tsInterfaceDecl n f => rfl
  | funcNode o => rfl
  | otherNode => rfl

/-- A `findSome?` hit comes from a list element. -/
theorem findSome?_mem {α β : Type} (f : α → Option β) :
    ∀ (l : List α) (s : β), l.findSome? f = some s → ∃ n ∈ l, f n = some s := by
  intro l
  induction l with
  | nil => intro s h; exact absurd h (by simp [List.findSome?])
  | cons x xs ih =>
    intro s h
    rw [List.findSome?] at h
    cases hfx : f x with
    | some b =>
      rw [hfx] at h
      exact ⟨x, List.mem_cons_self x xs, hfx.trans h⟩
    | none =>
      rw [hfx] at h
      rcases ih s h with ⟨n, hn, hfn⟩
      exact ⟨n, List.mem_cons_of_mem x hn, hfn⟩

/-- A left fold of option-overwrites computes the last assigned value. -/
theorem foldl_overwrite (f : JsNode → Option String) (l : List JsNode) (acc : String) :
    l.foldl (fun a n => (f n).getD a) acc = (l.reverse.findSome? f).getD acc := by
  induction l generalizing acc with
  | nil => rfl
  | cons x xs ih =>
    rw [List.foldl_cons, ih, List.reverse_cons, List.findSome?_append]
    cases h : xs.reverse.findSome? f with
    | some s => simp [Option.or]
    | none => cases hfx : f x <;> simp [List.findSome?, hfx, Option.or]

/-- C7 (amended): the extracted component name is the LAST name assigned by
an export declaration in document order — each default-export
identifier/declaration name and each named-exported function/class name
overwrites the previous value — with the capitalized filename as fallback
when no export assigns a name.  (The original first-rule-wins priority is
false, see the counterexample.)  The hypothesis excludes the impossible
empty identifier. -/
theorem claim_C7 (fileBase : String) (ast : List JsNode)
    (hne : ∀ n ∈ ast, exportAssignedName n ≠ some "") :
    extractComponentName fileBase ast =
      match lastExportName ast with
      | some s => s
      | none => pascalCaseFromFileName fileBase := by
  unfold extractComponentName
  have hfold : (ast.foldl
      (fun acc node =>
        match node with
        | JsNode.exportDefaultIdent s => s
        | JsNode.exportDefaultFunc (some s) => s
        | JsNode.exportDefaultClass (some s) => s
        | JsNode.exportNamedFunc (some s) => s
        | _ => acc) "") = (ast.reverse.findSome? exportAssignedName).getD "" := by
    rw [← foldl_overwrite]
    exact List.foldl_ext _ _ _ (fun a n _ => extractComponentName_step a n)
  rw [hfold]
  unfold lastExportName
  cases h : ast.reverse.findSome? exportAssignedName with
  | none => simp
  | some s =>
    have hs : s ≠ "" := by
      rcases findSome?_mem exportAssignedName ast.reverse s h with ⟨n, hn, hfn⟩
      intro hemp
      exact hne n (List.mem_reverse.mp hn) (hemp ▸ hfn) |>.elim
    simp [Option.getD, hs]

/-- C7 witness: the amended theorem applied to the Scenario A syntax tree,
hypotheses discharged by computation. -/
theorem claim_C7_witness :
    extractComponentName "LoginForm" scenarioAAst =
      match lastExportName scenarioAAst with
      | some s => s
      | none => pascalCaseFromFileName "LoginForm" :=
  claim_C7 "LoginForm" scenarioAAst (by decide)

/-- C7 counterexample: in a file whose default export precedes a named
function export, the named export's name wins (`Helper`), not the
default-exported `LoginForm` that the claimed priority order requires. -/
theorem claim_C7_counterexample :
    extractComponentName "x"
      [JsNode.exportDefaultIdent "LoginForm", JsNode.exportNamedFunc (some "Helper")]
      = "Helper" ∧
    extractComponentName "x"
      [JsNode.exportDefaultIdent "LoginForm", JsNode.exportNamedFunc (some "Helper")]
      ≠ "LoginForm" := by
  decide

end UserLens
namespace UserLens

/-! ## C8: prop extraction -/

/-- `fillFromPattern` only appends props, each with type `any`, not
required, and a name neither present in the base list nor duplicated among
the appended ones. -/
theorem fillFromPattern_spec (names : List String) (ps : List PropDefinition) :
    ∃ ext, fillFromPattern names ps = ps ++ ext ∧
      (∀ p ∈ ext, p.type = "any" ∧ p.required = false ∧ ∀ q ∈ ps, q.name ≠ p.name) ∧
      (ext.map (fun p => p.name)).Nodup := by
  induction names generalizing ps with
  | nil => exact ⟨[], by simp [fillFromPattern], by simp, by simp⟩
  | cons nm rest ih =>
    have hunfold : fillFromPattern (nm :: rest) ps =
        fillFromPattern rest
          (if ps.any (fun p => p.name == nm) then ps
           else ps ++ [⟨nm, "any", false⟩]) := rfl
    by_cases hmem : (ps.any (fun p => p.name == nm)) = true
    · rcases ih ps with ⟨ext, he, hprops, hnd⟩
      refine ⟨ext, ?_, hprops, hnd⟩
      rw [hunfold, if_pos hmem, he]
    · rcases ih (ps ++ [⟨nm, "any", false⟩]) with ⟨ext, he, hprops, hnd⟩
      refine ⟨⟨nm, "any", false⟩ :: ext, ?_, ?_, ?_⟩
      · rw [hunfold, if_neg hmem, he, List.append_assoc]
        rfl
      · intro p hp
        rcases List.mem_cons.mp hp with rfl | hp2
        · refine ⟨rfl, rfl, ?_⟩
          intro q hq
          intro hqe
          apply hmem
          rw [List.any_eq_true]
          exact ⟨q, hq, by simp [hqe]⟩
        · rcases hprops p hp2 with ⟨ht, hr, hn⟩
          exact ⟨ht, hr, fun q hq => hn q (List.mem_append_left _ hq)⟩
      · rw [List.map_cons, List.nodup_cons]
        refine ⟨?_, hnd⟩
        intro hmem2
        rcases List.mem_map.mp hmem2 with ⟨p, hp, hpn⟩
        rcases hprops p hp with ⟨_, _, hn⟩
        exact hn ⟨nm, "any", false⟩ (List.mem_append_right _ (by simp)) (by simp [hpn])

/-- `fillFromPatterns` over a whole tree: the same append-only
characterization. -/
theorem fillFromPatterns_spec (ast : List JsNode) (ps : List PropDefinition) :
    ∃ ext, fillFromPatterns ast ps = ps ++ ext ∧
      (∀ p ∈ ext, p.type = "any" ∧ p.required = false ∧ ∀ q ∈ ps, q.name ≠ p.name) ∧
      (ext.map (fun p => p.name)).Nodup := by
  induction ast generalizing ps with
  | nil => exact ⟨[], by simp [fillFromPatterns], by simp, by simp⟩
  | cons node rest ih =>
    have hstep : ∃ ps1, fillFromPatterns (node :: rest) ps = fillFromPatterns rest ps1 ∧
        (∃ ext1, ps1 = ps ++ ext1 ∧
          (∀ p ∈ ext1, p.type = "any" ∧ p.required = false ∧ ∀ q ∈ ps, q.name ≠ p.name) ∧
          (ext1.map (fun p => p.name)).Nodup) := by
      cases node with
      | funcNode o =>
        cases o with
        | some names =>
          refine ⟨fillFromPattern names ps, by simp [fillFromPatterns], ?_⟩
          rcases fillFromPattern_spec names ps with ⟨ext1, he1, hp1, hn1⟩
          exact ⟨ext1, he1, hp1, hn1⟩
        | none => exact ⟨ps, by simp [fillFromPatterns], ⟨[], by simp, by simp, by simp⟩⟩
      | exportDefaultIdent s =>
        exact ⟨ps, by simp [fillFromPatterns], ⟨[], by simp, by simp, by simp⟩⟩
      | exportDefaultFunc o =>
        exact ⟨ps, by simp [fillFromPatterns], ⟨[], by simp, by simp, by simp⟩⟩
      | exportDefaultClass o =>
        exact ⟨ps, by simp [fillFromPatterns], ⟨[], by simp, by simp, by simp⟩⟩
      | exportNamedFunc o =>
        exact ⟨ps, by simp [fillFromPatterns], ⟨[], by simp, by simp, by simp⟩⟩
      | propTypesAssign e =>
        exact ⟨ps, by simp [fillFromPatterns], ⟨[], by simp, by simp, by simp⟩⟩
      | tsInterfaceDecl n f =>
        exact ⟨ps, by simp [fillFromPatterns], ⟨[], by simp, by simp, by simp⟩⟩
      | otherNode =>
        exact ⟨ps, by simp [fillFromPatterns], ⟨[], by simp, by simp, by simp⟩⟩
    rcases hstep with ⟨ps1, hrw, ext1, hps1, hp1, hn1⟩
    rcases ih ps1 with ⟨ext2, he2, hp2, hn2⟩
    refine ⟨ext1 ++ ext2, ?_, ?_, ?_⟩
    · rw [hrw, he2, hps1, List.append_assoc]
    · intro p hp
      rcases List.mem_append.mp hp with h1 | h2
      · exact hp1 p h1
      · rcases hp2 p h2 with ⟨ht, hr, hn⟩
        exact ⟨ht, hr, fun q hq => hn q (hps1 ▸ List.mem_append_left _ hq)⟩
    · rw [List.map_append, List.nodup_append]
      refine ⟨hn1, hn2, ?_⟩
      intro a ha1 ha2
      rcases List.mem_map.mp ha1 with ⟨p1, hp1m, hpn1⟩
      rcases List.mem_map.mp ha2 with ⟨p2, hp2m, hpn2⟩
      rcases hp2 p2 hp2m with ⟨_, _, hn⟩
      exact hn p1 (hps1 ▸ List.mem_append_right _ hp1m) (by rw [hpn1, hpn2])

/-- C8 (amended): the extracted prop list is the interface-derived props (in
document order) followed by the propTypes-descriptor props, followed by
destructuring-derived fills; every fill has type `any`, `required = false`,
and a fresh name (absent from the earlier props and from the other fills).
Duplicates between the interface and descriptor sources are NOT removed, and
the descriptor props come after (not before) the interface props; the
original claim's no-duplicates guarantee and source order are refuted by the
counterexample. -/
theorem claim_C8 (ast : List JsNode) :
    (extractProps ast).take
        (interfaceProps ast ++
          (collectPropTypes ast).map (fun kv => PropDefinition.mk kv.1 kv.2.1 kv.2.2)).length =
      interfaceProps ast ++
        (collectPropTypes ast).map (fun kv => PropDefinition.mk kv.1 kv.2.1 kv.2.2) ∧
    (∀ p ∈ (extractProps ast).drop
        (interfaceProps ast ++
          (collectPropTypes ast).map (fun kv => PropDefinition.mk kv.1 kv.2.1 kv.2.2)).length,
      p.type = "any" ∧ p.required = false ∧
        ∀ q ∈ interfaceProps ast ++
            (collectPropTypes ast).map (fun kv => PropDefinition.mk kv.1 kv.2.1 kv.2.2),
          q.name ≠ p.name) ∧
    (((extractProps ast).drop
        (interfaceProps ast ++
          (collectPropTypes ast).map (fun kv => PropDefinition.mk kv.1 kv.2.1 kv.2.2)).length).map
      (fun p => p.name)).Nodup := by
  rcases fillFromPatterns_spec ast
      (interfaceProps ast ++
        (collectPropTypes ast).map (fun kv => PropDefinition.mk kv.1 kv.2.1 kv.2.2)) with
    ⟨ext, he, hp, hn⟩
  have hextract : extractProps ast =
      (interfaceProps ast ++
        (collectPropTypes ast).map (fun kv => PropDefinition.mk kv.1 kv.2.1 kv.2.2)) ++ ext := by
    unfold extractProps
    exact he
  refine ⟨?_, ?_, ?_⟩
  · rw [hextract, List.take_left]
  · rw [hextract, List.drop_left]
    exact hp
  · rw [hextract, List.drop_left]
    exact hn

/-- C8 counterexample: a file declaring both `propTypes = { x: ... }` and an
interface `FooProps { x: string }` yields the prop name `x` twice — the
extracted list has duplicate names — and the interface-derived prop comes
first, not the descriptor-derived one. -/
theorem claim_C8_counterexample :
    ((extractProps
        [JsNode.propTypesAssign [("x", some ("PropTypes", "string"))],
         JsNode.tsInterfaceDecl "FooProps" [⟨"x", false, TSTypeKind.str⟩]]).map
      (fun p => p.name)) = ["x", "x"] ∧
    ¬ ((extractProps
        [JsNode.propTypesAssign [("x", some ("PropTypes", "string"))],
         JsNode.tsInterfaceDecl "FooProps" [⟨"x", false, TSTypeKind.str⟩]]).map
      (fun p => p.name)).Nodup := by
  decide

end UserLens
namespace UserLens

/-! ## C9: invalid persisted cache entries -/

/-- A parsed cache value fails the field validation when it is falsy, its
`sourceFileHash` is missing or not a string, or its `componentMetadata` is
undefined. -/
def cacheFileInvalid (truthy : Bool) (h : Option String)
    (m : Option ComponentMetadata) : Prop :=
  truthy = false ∨ h = none ∨ m = none

/-- C9 (amended): a persisted entry that PARSES but fails the field
validation (falsy value, missing/non-string `sourceFileHash`, or missing
`componentMetadata`) is treated as a miss and its file is deleted
immediately; an entry that fails `JSON.parse`, however, is treated as a miss
but is NOT deleted (the read error is caught and only logged) — the
original claim's deletion guarantee for unparseable entries is refuted by
the counterexample. -/
theorem claim_C9 (truthy : Bool) (h : Option String) (m : Option ComponentMetadata)
    (hinv : cacheFileInvalid truthy h m) :
    (getCachedComponent (some (CacheFileOnDisk.parsedAs truthy h m))).result = none ∧
    (getCachedComponent (some (CacheFileOnDisk.parsedAs truthy h m))).fileDeleted = true := by
  rcases hinv with ht | hh | hm
  · subst ht
    cases h <;> cases m <;> exact ⟨rfl, rfl⟩
  · subst hh
    cases truthy <;> cases m <;> exact ⟨rfl, rfl⟩
  · subst hm
    cases truthy <;> cases h <;> exact ⟨rfl, rfl⟩

/-- C9 witness: the amended theorem applied to a parsed entry whose
`sourceFileHash` field is missing. -/
theorem claim_C9_witness :
    (getCachedComponent (some (CacheFileOnDisk.parsedAs true none
        (some (ComponentMetadata.mk "A" "a" [] [] [] ComponentCategory.layout ""))))).result
      = none ∧
    (getCachedComponent (some (CacheFileOnDisk.parsedAs true none
        (some (ComponentMetadata.mk "A" "a" [] [] [] ComponentCategory.layout ""))))).fileDeleted
      = true :=
  claim_C9 true none (some (ComponentMetadata.mk "A" "a" [] [] [] ComponentCategory.layout ""))
    (Or.inr (Or.inl rfl))

/-- C9 counterexample: a cache file whose content cannot be parsed as JSON
is treated as a miss but its file is NOT deleted — `JSON.parse` throws
before the validation branch, and the catch block only logs — contradicting
the claim that every unparseable entry is deleted immediately. -/
theorem claim_C9_counterexample :
    (getCachedComponent (some CacheFileOnDisk.malformed)).result = none ∧
    (getCachedComponent (some CacheFileOnDisk.malformed)).fileDeleted = false := by
  exact ⟨rfl, rfl⟩

/-! ## C2: cache hit iff exact content-hash match -/

/-- C2: for a file with an existing cache entry, the stored metadata is
reused (without re-extraction, leaving the cache untouched) if and only if
the hash of the current content equals the entry's `sourceFileHash` exactly;
on reuse a legacy absolute stored path is normalized to its
project-relative form; on any mismatch the file is re-extracted, its path
forced relative, and the entry overwritten with the new hash and
metadata. -/
theorem cacheLookup_cacheWrite_self (cache : Cache) (e : CacheEntry) :
    cacheLookup e.key (cacheWrite cache e) = some e := by
  induction cache with
  | nil => simp [cacheWrite, cacheLookup, List.find?]
  | cons x rest ih =>
    by_cases hk : (x.key == e.key) = true
    · rw [cacheWrite, if_pos hk]
      simp [cacheLookup, List.find?]
    · rw [cacheWrite, if_neg hk]
      have hx : (x.key == e.key) = false := by
        simpa using hk
      simpa [cacheLookup, List.find?, hx] using ih

theorem cacheLookup_cacheWrite_other (cache : Cache) (e : CacheEntry) (q : String)
    (hq : q ≠ e.key) : cacheLookup q (cacheWrite cache e) = cacheLookup q cache := by
  have hne : ¬ e.key = q := fun h => hq h.symm
  induction cache with
  | nil =>
    have he : (e.key == q) = false := by
      simpa using hne
    simp [cacheWrite, cacheLookup, List.find?, he]
  | cons x rest ih =>
    by_cases hk : (x.key == e.key) = true
    · rw [cacheWrite, if_pos hk]
      have hx : x.key = e.key := by simpa using hk
      have he : (e.key == q) = false := by
        simpa using hne
      have hxq : (x.key == q) = false := by
        rw [hx]
        exact he
      simp [cacheLookup, List.find?, he, hxq]
    · rw [cacheWrite, if_neg hk]
      by_cases hxq : (x.key == q) = true
      · simp [cacheLookup, List.find?, hxq]
      · have hxq2 : (x.key == q) = false := by simpa using hxq
        simpa [cacheLookup, List.find?, hxq2] using ih

theorem claim_C2 (env : AnalyzeEnv) (cache : Cache) (relativeFilePath content : String)
    (entry : CacheEntry) (hentry : cacheLookup relativeFilePath cache = some entry) :
    (((processFile env cache relativeFilePath content).changedOrNew = false ∧
      (processFile env cache relativeFilePath content).pushed =
        (if isAbsolutePath entry.componentMetadata.filePath then
          entry.componentMetadata.withFilePath (env.rel entry.componentMetadata.filePath)
         else entry.componentMetadata) ∧
      (processFile env cache relativeFilePath content).cache = cache)
     ↔ entry.sourceFileHash = env.fileHash content) ∧
    (entry.sourceFileHash ≠ env.fileHash content →
      (processFile env cache relativeFilePath content).changedOrNew = true ∧
      (processFile env cache relativeFilePath content).pushed =
        (env.extract relativeFilePath content).withFilePath relativeFilePath ∧
      cacheLookup relativeFilePath (processFile env cache relativeFilePath content).cache =
        some ⟨relativeFilePath, env.fileHash content,
              (env.extract relativeFilePath content).withFilePath relativeFilePath⟩) := by
  by_cases hh : entry.sourceFileHash = env.fileHash content
  · have hproc : processFile env cache relativeFilePath content =
        ⟨normalizeMeta env.rel entry.componentMetadata, false, cache⟩ := by
      simp [processFile, hentry, hh]
    rw [hproc]
    refine ⟨⟨fun _ => hh, fun _ => ⟨rfl, ?_, rfl⟩⟩, fun hne => absurd hh hne⟩
    rfl
  · have hproc : processFile env cache relativeFilePath content =
        ⟨(env.extract relativeFilePath content).withFilePath relativeFilePath, true,
         cacheWrite cache ⟨relativeFilePath, env.fileHash content,
           (env.extract relativeFilePath content).withFilePath relativeFilePath⟩⟩ := by
      simp [processFile, hentry, hh]
    rw [hproc]
    refine ⟨⟨fun hcontr => absurd hcontr.1 (by simp), fun heq => absurd heq hh⟩, fun _ => ?_⟩
    exact ⟨rfl, rfl,
      cacheLookup_cacheWrite_self cache
        ⟨relativeFilePath, env.fileHash content,
         (env.extract relativeFilePath content).withFilePath relativeFilePath⟩⟩

/-- C2 witness: the theorem applied to a one-entry cache with a matching
hash (the hit side) — all hypotheses discharged concretely. -/
theorem claim_C2_witness :
    (((processFile
        ⟨fun s => s, fun _ _ => ComponentMetadata.mk "N" "x" [] [] [] ComponentCategory.layout "",
         fun s => strDrop s 1, fun _ => "", fun _ => "", fun _ => ""⟩
        [⟨"a.tsx", "h", ComponentMetadata.mk "N" "a.tsx" [] [] [] ComponentCategory.layout ""⟩]
        "a.tsx" "h").changedOrNew = false ∧
      (processFile
        ⟨fun s => s, fun _ _ => ComponentMetadata.mk "N" "x" [] [] [] ComponentCategory.layout "",
         fun s => strDrop s 1, fun _ => "", fun _ => "", fun _ => ""⟩
        [⟨"a.tsx", "h", ComponentMetadata.mk "N" "a.tsx" [] [] [] ComponentCategory.layout ""⟩]
        "a.tsx" "h").pushed =
        (if isAbsolutePath (ComponentMetadata.mk "N" "a.tsx" [] [] [] ComponentCategory.layout
            "").filePath then
          (ComponentMetadata.mk "N" "a.tsx" [] [] [] ComponentCategory.layout
            "").withFilePath ((fun s => strDrop s 1) (ComponentMetadata.mk "N" "a.tsx" [] [] []
              ComponentCategory.layout "").filePath)
         else ComponentMetadata.mk "N" "a.tsx" [] [] [] ComponentCategory.layout "") ∧
      (processFile
        ⟨fun s => s, fun _ _ => ComponentMetadata.mk "N" "x" [] [] [] ComponentCategory.layout "",
         fun s => strDrop s 1, fun _ => "", fun _ => "", fun _ => ""⟩
        [⟨"a.tsx", "h", ComponentMetadata.mk "N" "a.tsx" [] [] [] ComponentCategory.layout ""⟩]
        "a.tsx" "h").cache =
        [⟨"a.tsx", "h", ComponentMetadata.mk "N" "a.tsx" [] [] [] ComponentCategory.layout ""⟩])
     ↔ "h" = "h") ∧
    ("h" ≠ "h" →
      (processFile
        ⟨fun s => s, fun _ _ => ComponentMetadata.mk "N" "x" [] [] [] ComponentCategory.layout "",
         fun s => strDrop s 1, fun _ => "", fun _ => "", fun _ => ""⟩
        [⟨"a.tsx", "h", ComponentMetadata.mk "N" "a.tsx" [] [] [] ComponentCategory.layout ""⟩]
        "a.tsx" "h").changedOrNew = true ∧
      (processFile
        ⟨fun s => s, fun _ _ => ComponentMetadata.mk "N" "x" [] [] [] ComponentCategory.layout "",
         fun s => strDrop s 1, fun _ => "", fun _ => "", fun _ => ""⟩
        [⟨"a.tsx", "h", ComponentMetadata.mk "N" "a.tsx" [] [] [] ComponentCategory.layout ""⟩]
        "a.tsx" "h").pushed =
        ((fun (_ : String) (_ : String) =>
          ComponentMetadata.mk "N" "x" [] [] [] ComponentCategory.layout "") "a.tsx"
          "h").withFilePath "a.tsx" ∧
      cacheLookup "a.tsx"
        (processFile
          ⟨fun s => s, fun _ _ => ComponentMetadata.mk "N" "x" [] [] [] ComponentCategory.layout "",
           fun s => strDrop s 1, fun _ => "", fun _ => "", fun _ => ""⟩
          [⟨"a.tsx", "h", ComponentMetadata.mk "N" "a.tsx" [] [] [] ComponentCategory.layout ""⟩]
          "a.tsx" "h").cache =
        some ⟨"a.tsx", "h",
          ((fun (_ : String) (_ : String) =>
            ComponentMetadata.mk "N" "x" [] [] [] ComponentCategory.layout "") "a.tsx"
            "h").withFilePath "a.tsx"⟩) :=
  claim_C2
    ⟨fun s => s, fun _ _ => ComponentMetadata.mk "N" "x" [] [] [] ComponentCategory.layout "",
     fun s => strDrop s 1, fun _ => "", fun _ => "", fun _ => ""⟩
    [⟨"a.tsx", "h", ComponentMetadata.mk "N" "a.tsx" [] [] [] ComponentCategory.layout ""⟩]
    "a.tsx" "h"
    ⟨"a.tsx", "h", ComponentMetadata.mk "N" "a.tsx" [] [] [] ComponentCategory.layout ""⟩
    rfl

end UserLens
namespace UserLens

/-! ## Cache/pipeline structural lemmas for C3 and C4 -/

/-- Well-formed cache store: every entry's stored metadata path equals the
key it is filed under (true of every entry this pipeline writes; legacy
entries with absolute stored paths violate it). -/
def cacheWellFormed (cache : Cache) : Prop :=
  ∀ e ∈ cache, e.componentMetadata.filePath = e.key

theorem mem_cacheWrite (cache : Cache) (e x : CacheEntry)
    (hx : x ∈ cacheWrite cache e) : x = e ∨ x ∈ cache := by
  induction cache with
  | nil =>
    simp [cacheWrite] at hx
    exact Or.inl hx
  | cons y rest ih =>
    by_cases hk : (y.key == e.key) = true
    · rw [cacheWrite, if_pos hk] at hx
      rcases List.mem_cons.mp hx with rfl | hx2
      · exact Or.inl rfl
      · exact Or.inr (List.mem_cons_of_mem y hx2)
    · rw [cacheWrite, if_neg hk] at hx
      rcases List.mem_cons.mp hx with rfl | hx2
      · exact Or.inr (List.mem_cons_self _ _)
      · rcases ih hx2 with h1 | h2
        · exact Or.inl h1
        · exact Or.inr (List.mem_cons_of_mem y h2)

theorem cacheLookup_key (cache : Cache) (p : String) (e : CacheEntry)
    (h : cacheLookup p cache = some e) : e.key = p ∧ e ∈ cache := by
  have h1 := List.find?_some h
  have h2 := List.mem_of_find?_eq_some h
  exact ⟨by simpa using h1, h2⟩

/-- After processing a file, its cache entry exists, is keyed by the file's
relative path, stores the current content hash, and stores exactly the
pushed metadata (given a well-formed cache and a relative scan path). -/
theorem processFile_post (env : AnalyzeEnv) (cache : Cache) (p content : String)
    (hwf : cacheWellFormed cache) (hrel : isAbsolutePath p = false) :
    ∃ e, cacheLookup p (processFile env cache p content).cache = some e ∧
      e.key = p ∧ e.sourceFileHash = env.fileHash content ∧
      e.componentMetadata = (processFile env cache p content).pushed := by
  cases hlook : cacheLookup p cache with
  | some entry =>
    by_cases hh : (entry.sourceFileHash == env.fileHash content) = true
    · have hproc : processFile env cache p content =
          ⟨normalizeMeta env.rel entry.componentMetadata, false, cache⟩ := by
        simp [processFile, hlook, hh]
      rcases cacheLookup_key cache p entry hlook with ⟨hkey, hmem⟩
      have hfp : entry.componentMetadata.filePath = p := by
        rw [hwf entry hmem, hkey]
      have hnorm : normalizeMeta env.rel entry.componentMetadata = entry.componentMetadata := by
        rw [normalizeMeta, hfp, hrel]
        simp
      refine ⟨entry, ?_, hkey, by simpa using hh, ?_⟩
      · rw [hproc]
        exact hlook
      · rw [hproc, hnorm]
    · have hproc : processFile env cache p content =
          ⟨(env.extract p content).withFilePath p, true,
           cacheWrite cache ⟨p, env.fileHash content,
             (env.extract p content).withFilePath p⟩⟩ := by
        have hh2 : ¬ entry.sourceFileHash = env.fileHash content := by
          simpa using hh
        simp [processFile, hlook, hh2]
      refine ⟨⟨p, env.fileHash content, (env.extract p content).withFilePath p⟩, ?_, rfl, rfl, ?_⟩
      · rw [hproc]
        exact cacheLookup_cacheWrite_self cache
          ⟨p, env.fileHash content, (env.extract p content).withFilePath p⟩
      · rw [hproc]
  | none =>
    have hproc : processFile env cache p content =
        ⟨(env.extract p content).withFilePath p, true,
         cacheWrite cache ⟨p, env.fileHash content,
           (env.extract p content).withFilePath p⟩⟩ := by
      simp [processFile, hlook]
    refine ⟨⟨p, env.fileHash content, (env.extract p content).withFilePath p⟩, ?_, rfl, rfl, ?_⟩
    · rw [hproc]
      exact cacheLookup_cacheWrite_self cache
        ⟨p, env.fileHash content, (env.extract p content).withFilePath p⟩
    · rw [hproc]

/-- The stored path of a freshly written entry is its key. -/
theorem withFilePath_filePath (m : ComponentMetadata) (p : String) :
    (m.withFilePath p).filePath = p := by
  cases m
  rfl

/-- `processFile` preserves cache well-formedness. -/
theorem processFile_wf (env : AnalyzeEnv) (cache : Cache) (p content : String)
    (hwf : cacheWellFormed cache) :
    cacheWellFormed (processFile env cache p content).cache := by
  intro x hx
  cases hlook : cacheLookup p cache with
  | some entry =>
    by_cases hh : (entry.sourceFileHash == env.fileHash content) = true
    · have hproc : (processFile env cache p content).cache = cache := by
        simp [processFile, hlook, hh]
      exact hwf x (hproc ▸ hx)
    · have hh2 : ¬ entry.sourceFileHash = env.fileHash content := by simpa using hh
      have hproc : (processFile env cache p content).cache =
          cacheWrite cache ⟨p, env.fileHash content,
            (env.extract p content).withFilePath p⟩ := by
        simp [processFile, hlook, hh2]
      rcases mem_cacheWrite _ _ _ (hproc ▸ hx) with rfl | hx2
      · exact withFilePath_filePath _ _
      · exact hwf x hx2
  | none =>
    have hproc : (processFile env cache p content).cache =
        cacheWrite cache ⟨p, env.fileHash content,
          (env.extract p content).withFilePath p⟩ := by
      simp [processFile, hlook]
    rcases mem_cacheWrite _ _ _ (hproc ▸ hx) with rfl | hx2
    · exact withFilePath_filePath _ _
    · exact hwf x hx2

/-- `processFile` leaves the entries of other keys untouched. -/
theorem processFile_lookup_other (env : AnalyzeEnv) (cache : Cache) (p content q : String)
    (hq : q ≠ p) :
    cacheLookup q (processFile env cache p content).cache = cacheLookup q cache := by
  cases hlook : cacheLookup p cache with
  | some entry =>
    by_cases hh : (entry.sourceFileHash == env.fileHash content) = true
    · have hproc : (processFile env cache p content).cache = cache := by
        simp [processFile, hlook, hh]
      rw [hproc]
    · have hh2 : ¬ entry.sourceFileHash = env.fileHash content := by simpa using hh
      have hproc : (processFile env cache p content).cache =
          cacheWrite cache ⟨p, env.fileHash content,
            (env.extract p content).withFilePath p⟩ := by
        simp [processFile, hlook, hh2]
      rw [hproc]
      exact cacheLookup_cacheWrite_other cache _ q hq
  | none =>
    have hproc : (processFile env cache p content).cache =
        cacheWrite cache ⟨p, env.fileHash content,
          (env.extract p content).withFilePath p⟩ := by
      simp [processFile, hlook]
    rw [hproc]
    exact cacheLookup_cacheWrite_other cache _ q hq

/-- Provenance of cache entries across one `processFile` step. -/
theorem processFile_provenance (env : AnalyzeEnv) (cache : Cache) (p content : String)
    (x : CacheEntry) (hx : x ∈ (processFile env cache p content).cache) :
    x ∈ cache ∨ x.key = p := by
  cases hlook : cacheLookup p cache with
  | some entry =>
    by_cases hh : (entry.sourceFileHash == env.fileHash content) = true
    · have hproc : (processFile env cache p content).cache = cache := by
        simp [processFile, hlook, hh]
      exact Or.inl (hproc ▸ hx)
    · have hh2 : ¬ entry.sourceFileHash = env.fileHash content := by simpa using hh
      have hproc : (processFile env cache p content).cache =
          cacheWrite cache ⟨p, env.fileHash content,
            (env.extract p content).withFilePath p⟩ := by
        simp [processFile, hlook, hh2]
      rcases mem_cacheWrite _ _ _ (hproc ▸ hx) with rfl | hx2
      · exact Or.inr rfl
      · exact Or.inl hx2
  | none =>
    have hproc : (processFile env cache p content).cache =
        cacheWrite cache ⟨p, env.fileHash content,
          (env.extract p content).withFilePath p⟩ := by
      simp [processFile, hlook]
    rcases mem_cacheWrite _ _ _ (hproc ▸ hx) with rfl | hx2
    · exact Or.inr rfl
    · exact Or.inl hx2

/-- A file whose stored entry carries the current content hash is a cache
hit: nothing is pushed to the changed list, the cache is untouched, and the
stored metadata (unchanged, since its path is relative) is reused. -/
theorem processFile_hit (env : AnalyzeEnv) (cache : Cache) (p content : String)
    (e : CacheEntry) (he : cacheLookup p cache = some e)
    (hh : e.sourceFileHash = env.fileHash content)
    (hfp : e.componentMetadata.filePath = p) (hrel : isAbsolutePath p = false) :
    processFile env cache p content = ⟨e.componentMetadata, false, cache⟩ := by
  have hnorm : normalizeMeta env.rel e.componentMetadata = e.componentMetadata := by
    rw [normalizeMeta, hfp, hrel]
    simp
  have : processFile env cache p content =
      ⟨normalizeMeta env.rel e.componentMetadata, false, cache⟩ := by
    simp [processFile, he, hh]
  rw [this, hnorm]

end UserLens
namespace UserLens

theorem runLoop_nil (env : AnalyzeEnv) (cache : Cache) :
    runLoop env cache [] = ([], [], cache) := rfl

theorem runLoop_cons (env : AnalyzeEnv) (cache : Cache) (p c : String)
    (rest : List (String × String)) :
    runLoop env cache ((p, c) :: rest) =
      ((processFile env cache p c).pushed ::
         (runLoop env (processFile env cache p c).cache rest).1,
       (if (processFile env cache p c).changedOrNew then [p] else []) ++
         (runLoop env (processFile env cache p c).cache rest).2.1,
       (runLoop env (processFile env cache p c).cache rest).2.2) := rfl

/-- The central loop invariant: after the analyze loop, the cache is still
well-formed, entries of unscanned keys are untouched, every entry either
predates the loop or is keyed by a scanned path, and re-running the loop on
any cache agreeing on the scanned keys reuses every file (same components,
no changed-or-new paths, cache untouched). -/
theorem runLoop_spec (env : AnalyzeEnv) :
    ∀ (files : List (String × String)) (cache : Cache),
      cacheWellFormed cache →
      (∀ pc ∈ files, isAbsolutePath pc.1 = false) →
      (files.map Prod.fst).Nodup →
      cacheWellFormed (runLoop env cache files).2.2 ∧
      (∀ q, q ∉ files.map Prod.fst →
        cacheLookup q (runLoop env cache files).2.2 = cacheLookup q cache) ∧
      (∀ x ∈ (runLoop env cache files).2.2, x ∈ cache ∨ x.key ∈ files.map Prod.fst) ∧
      (∀ cache2, (∀ p ∈ files.map Prod.fst,
          cacheLookup p cache2 = cacheLookup p (runLoop env cache files).2.2) →
        runLoop env cache2 files = ((runLoop env cache files).1, [], cache2)) := by
  intro files
  induction files with
  | nil =>
    intro cache hwf _ _
    exact ⟨hwf, fun q _ => rfl, fun x hx => Or.inl hx, fun cache2 _ => rfl⟩
  | cons pc rest ih =>
    rcases pc with ⟨p, c⟩
    intro cache hwf hrel hnd
    have hrelp : isAbsolutePath p = false := hrel (p, c) (List.mem_cons_self _ _)
    have hrelr : ∀ x ∈ rest, isAbsolutePath x.1 = false :=
      fun x hx => hrel x (List.mem_cons_of_mem _ hx)
    have hndr : (rest.map Prod.fst).Nodup := (List.nodup_cons.mp (by simpa using hnd)).2
    have hpnotin : p ∉ rest.map Prod.fst := (List.nodup_cons.mp (by simpa using hnd)).1
    have hwf1 : cacheWellFormed (processFile env cache p c).cache :=
      processFile_wf env cache p c hwf
    rcases ih (processFile env cache p c).cache hwf1 hrelr hndr with ⟨ihwf, ihother, ihprov, ihidem⟩
    rcases processFile_post env cache p c hwf hrelp with ⟨e, helook, hekey, hehash, hemeta⟩
    have hlookcf : cacheLookup p (runLoop env (processFile env cache p c).cache rest).2.2 =
        some e := by
      rw [ihother p hpnotin]
      exact helook
    refine ⟨?_, ?_, ?_, ?_⟩
    · rw [runLoop_cons]
      exact ihwf
    · intro q hq
      rw [runLoop_cons]
      have hq1 : q ≠ p := by
        intro hqe
        exact hq (by simp [hqe])
      have hq2 : q ∉ rest.map Prod.fst := by
        intro hqm
        exact hq (by simp [hqm])
      rw [ihother q hq2]
      exact processFile_lookup_other env cache p c q hq1
    · intro x hx
      rw [runLoop_cons] at hx
      rcases ihprov x hx with hx1 | hx2
      · rcases processFile_provenance env cache p c x hx1 with hh1 | hh2
        · exact Or.inl hh1
        · exact Or.inr (by simp [hh2])
      · exact Or.inr (by simp [hx2])
    · intro cache2 hagree
      have hagp : cacheLookup p cache2 = some e := by
        have := hagree p (by simp)
        rw [this, runLoop_cons]
        exact hlookcf
      have hfp : e.componentMetadata.filePath = p := by
        rcases cacheLookup_key _ _ _ hlookcf with ⟨hk, hm⟩
        rw [ihwf e hm, hk]
      have hhit : processFile env cache2 p c = ⟨e.componentMetadata, false, cache2⟩ :=
        processFile_hit env cache2 p c e hagp hehash hfp hrelp
      have hagr : ∀ q ∈ rest.map Prod.fst,
          cacheLookup q cache2 = cacheLookup q (runLoop env (processFile env cache p c).cache rest).2.2 := by
        intro q hq
        have := hagree q (by simp [hq])
        rw [this, runLoop_cons]
      rw [runLoop_cons, runLoop_cons, hhit]
      have hrest := ihidem cache2 hagr
      rw [hrest]
      simp [hemeta, hhit]

end UserLens
namespace UserLens

theorem includesStr_iff (l : List String) (s : String) :
    includesStr l s = true ↔ s ∈ l := by
  rw [includesStr, List.any_eq_true]
  constructor
  · rintro ⟨y, hy, hye⟩
    rwa [(by simpa using hye : y = s)] at hy
  · intro hs
    exact ⟨s, hs, by simp⟩

theorem mem_cacheRemove (c : Cache) (p : String) (x : CacheEntry) :
    x ∈ cacheRemove c p ↔ x ∈ c ∧ ¬ x.key = p := by
  rw [cacheRemove, List.mem_filter]
  simp

theorem cacheLookup_cacheRemove (c : Cache) (p q : String) :
    cacheLookup q (cacheRemove c p) = if q = p then none else cacheLookup q c := by
  by_cases hq : q = p
  · subst hq
    rw [if_pos rfl]
    induction c with
    | nil => rfl
    | cons x rest ih =>
      by_cases hx : (x.key == q) = true
      · have hx2 : ¬ (x.key == q) = false := by simp [hx]
        simpa [cacheRemove, cacheLookup, List.find?, List.filter, hx, hx2] using ih
      · have hx2 : (x.key == q) = false := by simpa using hx
        simpa [cacheRemove, cacheLookup, List.find?, List.filter, hx2] using ih
  · rw [if_neg hq]
    induction c with
    | nil => rfl
    | cons x rest ih =>
      by_cases hx : (x.key == p) = true
      · have hxp : x.key = p := by simpa using hx
        have hpq : ¬ p = q := fun h => hq h.symm
        have hxq : (x.key == q) = false := by
          simp [hxp, hpq]
        simpa [cacheRemove, cacheLookup, List.find?, List.filter, hx, hxq] using ih
      · have hx2 : (x.key == p) = false := by simpa using hx
        by_cases hxq : (x.key == q) = true
        · simp [cacheRemove, cacheLookup, List.find?, List.filter, hx2, hxq]
        · have hxq2 : (x.key == q) = false := by simpa using hxq
          simpa [cacheRemove, cacheLookup, List.find?, List.filter, hx2, hxq2] using ih

theorem cacheLookup_foldl_cacheRemove (D : List String) (c : Cache) (q : String) :
    cacheLookup q (D.foldl cacheRemove c) = if q ∈ D then none else cacheLookup q c := by
  induction D generalizing c with
  | nil => simp
  | cons d rest ih =>
    rw [List.foldl_cons, ih]
    by_cases hq : q ∈ rest
    · simp [hq]
    · by_cases hqd : q = d
      · simp [hq, hqd, cacheLookup_cacheRemove]
      · simp [hq, hqd, cacheLookup_cacheRemove]

theorem mem_foldl_cacheRemove (D : List String) (c : Cache) (x : CacheEntry) :
    x ∈ D.foldl cacheRemove c ↔ x ∈ c ∧ x.key ∉ D := by
  induction D generalizing c with
  | nil => simp
  | cons d rest ih =>
    rw [List.foldl_cons, ih, mem_cacheRemove]
    constructor
    · rintro ⟨⟨h1, h2⟩, h3⟩
      refine ⟨h1, ?_⟩
      intro hmem
      rcases List.mem_cons.mp hmem with h | h
      · exact h2 h
      · exact h3 h
    · rintro ⟨h1, h2⟩
      exact ⟨⟨h1, fun h => h2 (by simp [h])⟩, fun h => h2 (by simp [h])⟩

/-! Projection equations of `runAnalyze` (definitional). -/

theorem runAnalyze_components (env : AnalyzeEnv) (files : List (String × String))
    (st : AnalyzeState) :
    (runAnalyze env files st).components = (runLoop env st.cache files).1 := rfl

theorem runAnalyze_patterns (env : AnalyzeEnv) (files : List (String × String))
    (st : AnalyzeState) :
    (runAnalyze env files st).patterns = detectPatterns (runLoop env st.cache files).1 := rfl

theorem runAnalyze_workflows (env : AnalyzeEnv) (files : List (String × String))
    (st : AnalyzeState) :
    (runAnalyze env files st).workflows = detectWorkflows (runLoop env st.cache files).1 := rfl

theorem runAnalyze_new (env : AnalyzeEnv) (files : List (String × String))
    (st : AnalyzeState) :
    (runAnalyze env files st).changeset.newComponents =
      (runLoop env st.cache files).2.1.filter
        (fun p => !(includesStr (getAllCachedFilePaths st.cache) p)) := rfl

theorem runAnalyze_changed (env : AnalyzeEnv) (files : List (String × String))
    (st : AnalyzeState) :
    (runAnalyze env files st).changeset.changedComponents =
      (runLoop env st.cache files).2.1.filter
        (fun p => includesStr (getAllCachedFilePaths st.cache) p) := rfl

theorem runAnalyze_deleted (env : AnalyzeEnv) (files : List (String × String))
    (st : AnalyzeState) :
    (runAnalyze env files st).changeset.deletedComponents =
      (getAllCachedFilePaths st.cache).filter
        (fun p => !(includesStr (files.map Prod.fst) p)) := rfl

theorem runAnalyze_cjc (env : AnalyzeEnv) (files : List (String × String))
    (st : AnalyzeState) :
    (runAnalyze env files st).changeset.componentsJsonChanged =
      (match st.artComponents with
       | none => true
       | some old =>
         !(env.hashComponents old == env.hashComponents (runLoop env st.cache files).1)) := rfl

theorem runAnalyze_pjc (env : AnalyzeEnv) (files : List (String × String))
    (st : AnalyzeState) :
    (runAnalyze env files st).changeset.patternsJsonChanged =
      (match st.artPatterns with
       | none => true
       | some old =>
         !(env.hashPatterns old ==
            env.hashPatterns (detectPatterns (runLoop env st.cache files).1))) := rfl

theorem runAnalyze_wjc (env : AnalyzeEnv) (files : List (String × String))
    (st : AnalyzeState) :
    (runAnalyze env files st).changeset.workflowsJsonChanged =
      (match st.artWorkflows with
       | none => true
       | some old =>
         !(env.hashWorkflows old ==
            env.hashWorkflows (detectWorkflows (runLoop env st.cache files).1))) := rfl

theorem runAnalyze_stateCache (env : AnalyzeEnv) (files : List (String × String))
    (st : AnalyzeState) :
    (runAnalyze env files st).state.cache =
      ((getAllCachedFilePaths st.cache).filter
        (fun p => !(includesStr (files.map Prod.fst) p))).foldl cacheRemove
        (runLoop env st.cache files).2.2 := rfl

theorem runAnalyze_artC (env : AnalyzeEnv) (files : List (String × String))
    (st : AnalyzeState) :
    (runAnalyze env files st).state.artComponents =
      (if (runAnalyze env files st).changeset.componentsJsonChanged then
        some (runLoop env st.cache files).1
       else st.artComponents) := rfl

theorem runAnalyze_artP (env : AnalyzeEnv) (files : List (String × String))
    (st : AnalyzeState) :
    (runAnalyze env files st).state.artPatterns =
      (if (runAnalyze env files st).changeset.patternsJsonChanged then
        some (detectPatterns (runLoop env st.cache files).1)
       else st.artPatterns) := rfl

theorem runAnalyze_artW (env : AnalyzeEnv) (files : List (String × String))
    (st : AnalyzeState) :
    (runAnalyze env files st).state.artWorkflows =
      (if (runAnalyze env files st).changeset.workflowsJsonChanged then
        some (detectWorkflows (runLoop env st.cache files).1)
       else st.artWorkflows) := rfl

end UserLens
namespace UserLens

/-! ## C4: deleted-path computation and cache removal -/

/-- On a well-formed cache store the stored paths are exactly the keys. -/
theorem getAllCachedFilePaths_wf (cache : Cache) (hwf : cacheWellFormed cache) :
    getAllCachedFilePaths cache = cache.map (fun e => e.key) := by
  unfold getAllCachedFilePaths
  exact List.map_congr_left hwf

/-- C4 (amended): provided every pre-existing cache entry stores the
relative path it is keyed under (true of all entries this pipeline writes),
`changeset.deletedComponents` is exactly the cache keys present before the
run that are missing from this run's scan, and every such key's entry is
absent from the cache afterwards.  (Without that provision the run computes
the deletion set from the paths stored INSIDE the entries, which the
counterexample shows can differ from the keys.) -/
theorem claim_C4 (env : AnalyzeEnv) (files : List (String × String)) (st : AnalyzeState)
    (hwf : cacheWellFormed st.cache) :
    (runAnalyze env files st).changeset.deletedComponents =
      (st.cache.map (fun e => e.key)).filter
        (fun p => !(includesStr (files.map Prod.fst) p)) ∧
    ∀ p ∈ (runAnalyze env files st).changeset.deletedComponents,
      cacheLookup p (runAnalyze env files st).state.cache = none := by
  constructor
  · rw [runAnalyze_deleted, getAllCachedFilePaths_wf st.cache hwf]
  · intro p hp
    rw [runAnalyze_deleted] at hp
    rw [runAnalyze_stateCache, cacheLookup_foldl_cacheRemove, if_pos hp]

/-- C4 witness: a cache holding one entry for `b.tsx` while the scan sees
only `a.tsx`; the theorem applies with the well-formedness hypothesis
discharged by computation. -/
theorem claim_C4_witness :
    (runAnalyze
        ⟨fun s => s, fun _ _ => ComponentMetadata.mk "A" "x" [] [] [] ComponentCategory.layout "",
         fun s => s, fun _ => "", fun _ => "", fun _ => ""⟩
        [("a.tsx", "x")]
        ⟨[⟨"b.tsx", "h", ComponentMetadata.mk "B" "b.tsx" [] [] [] ComponentCategory.layout ""⟩],
         none, none, none⟩).changeset.deletedComponents =
      (([⟨"b.tsx", "h",
          ComponentMetadata.mk "B" "b.tsx" [] [] [] ComponentCategory.layout ""⟩] : Cache).map
        (fun e => e.key)).filter
        (fun p => !(includesStr ([("a.tsx", "x")].map Prod.fst) p)) ∧
    ∀ p ∈ (runAnalyze
        ⟨fun s => s, fun _ _ => ComponentMetadata.mk "A" "x" [] [] [] ComponentCategory.layout "",
         fun s => s, fun _ => "", fun _ => "", fun _ => ""⟩
        [("a.tsx", "x")]
        ⟨[⟨"b.tsx", "h", ComponentMetadata.mk "B" "b.tsx" [] [] [] ComponentCategory.layout ""⟩],
         none, none, none⟩).changeset.deletedComponents,
      cacheLookup p (runAnalyze
        ⟨fun s => s, fun _ _ => ComponentMetadata.mk "A" "x" [] [] [] ComponentCategory.layout "",
         fun s => s, fun _ => "", fun _ => "", fun _ => ""⟩
        [("a.tsx", "x")]
        ⟨[⟨"b.tsx", "h", ComponentMetadata.mk "B" "b.tsx" [] [] [] ComponentCategory.layout ""⟩],
         none, none, none⟩).state.cache = none :=
  claim_C4
    ⟨fun s => s, fun _ _ => ComponentMetadata.mk "A" "x" [] [] [] ComponentCategory.layout "",
     fun s => s, fun _ => "", fun _ => "", fun _ => ""⟩
    [("a.tsx", "x")]
    ⟨[⟨"b.tsx", "h", ComponentMetadata.mk "B" "b.tsx" [] [] [] ComponentCategory.layout ""⟩],
     none, none, none⟩
    (by intro e he; simp at he; rw [he]; rfl)

/-- The legacy-cache scenario shared by the C3 and C4 counterexamples: the
cache holds, under the key `a.tsx`, an entry written by an older version
whose stored metadata path is the ABSOLUTE `/proj/a.tsx`, and its hash
matches the file's current content. -/
def legacyMeta : ComponentMetadata :=
  ComponentMetadata.mk "Zed" "/proj/a.tsx" [] [] [] ComponentCategory.layout ""

/-- Environment for the legacy scenario: identity content hash, constant
extractor, `path.relative` dropping the `/proj/` prefix. -/
def legacyEnv : AnalyzeEnv :=
  ⟨fun s => s, fun _ _ => legacyMeta, fun s => strDrop s 6,
   fun _ => "", fun _ => "", fun _ => ""⟩

/-- Initial state of the legacy scenario. -/
def legacyState : AnalyzeState :=
  ⟨[⟨"a.tsx", "h", legacyMeta⟩], none, none, none⟩

/-- The scanned files of the legacy scenario: the one unchanged file. -/
def legacyFiles : List (String × String) := [("a.tsx", "h")]

/-- C4 counterexample: on the legacy scenario the run reports the stored
absolute path `/proj/a.tsx` as deleted even though the cache key set
(`a.tsx`) minus the scanned paths (`a.tsx`) is empty — deletedComponents is
computed from the paths stored inside the entries, not from the keys, and
the entry itself survives in storage. -/
theorem claim_C4_counterexample :
    (runAnalyze legacyEnv legacyFiles legacyState).changeset.deletedComponents
      = ["/proj/a.tsx"] ∧
    ¬ ((runAnalyze legacyEnv legacyFiles legacyState).changeset.deletedComponents =
        (legacyState.cache.map (fun e => e.key)).filter
          (fun p => !(includesStr (legacyFiles.map Prod.fst) p))) ∧
    (cacheLookup "a.tsx" (runAnalyze legacyEnv legacyFiles legacyState).state.cache).isSome
      = true := by
  refine ⟨rfl, by decide, rfl⟩

end UserLens
namespace UserLens

/-! ## C3: idempotence of a second run -/

theorem changesetEq (a b : Changeset)
    (h1 : a.newComponents = b.newComponents)
    (h2 : a.changedComponents = b.changedComponents)
    (h3 : a.deletedComponents = b.deletedComponents)
    (h4 : a.componentsJsonChanged = b.componentsJsonChanged)
    (h5 : a.patternsJsonChanged = b.patternsJsonChanged)
    (h6 : a.workflowsJsonChanged = b.workflowsJsonChanged) : a = b := by
  cases a
  cases b
  simp_all

theorem analyzeStateEq (a b : AnalyzeState)
    (h1 : a.cache = b.cache)
    (h2 : a.artComponents = b.artComponents)
    (h3 : a.artPatterns = b.artPatterns)
    (h4 : a.artWorkflows = b.artWorkflows) : a = b := by
  cases a
  cases b
  simp_all

/-- C3 (amended): provided every pre-existing cache entry stores the relative
path it is keyed under, the scanned paths are relative, and no path is
scanned twice, a second run on the unchanged file set reproduces the same
components, patterns and workflows values (hence byte-identical serialized
artifacts), leaves the cache and artifact store untouched, and produces the
empty changeset with all three dirty flags false.  (Without the
well-formedness provision a legacy absolute-path entry makes the second
run's deletedComponents nonempty, see the counterexample.) -/
theorem claim_C3 (env : AnalyzeEnv) (files : List (String × String)) (st : AnalyzeState)
    (hwf : cacheWellFormed st.cache)
    (hrel : ∀ pc ∈ files, isAbsolutePath pc.1 = false)
    (hnd : (files.map Prod.fst).Nodup) :
    (runAnalyze env files (runAnalyze env files st).state).changeset =
      ⟨[], [], [], false, false, false⟩ ∧
    (runAnalyze env files (runAnalyze env files st).state).components =
      (runAnalyze env files st).components ∧
    (runAnalyze env files (runAnalyze env files st).state).patterns =
      (runAnalyze env files st).patterns ∧
    (runAnalyze env files (runAnalyze env files st).state).workflows =
      (runAnalyze env files st).workflows ∧
    (runAnalyze env files (runAnalyze env files st).state).state =
      (runAnalyze env files st).state := by
  obtain ⟨hwfL, hother, hprov, hidem⟩ := runLoop_spec env files st.cache hwf hrel hnd
  have hD1mem : ∀ p ∈ (getAllCachedFilePaths st.cache).filter
      (fun p => !(includesStr (files.map Prod.fst) p)), p ∉ files.map Prod.fst := by
    intro p hp
    have h2 := (List.mem_filter.mp hp).2
    intro hmem
    rw [(includesStr_iff _ _).mpr hmem] at h2
    simp at h2
  have hagree : ∀ p ∈ files.map Prod.fst,
      cacheLookup p (runAnalyze env files st).state.cache =
        cacheLookup p (runLoop env st.cache files).2.2 := by
    intro p hp
    rw [runAnalyze_stateCache, cacheLookup_foldl_cacheRemove, if_neg]
    intro hmem
    exact hD1mem p hmem hp
  have hloop2 : runLoop env (runAnalyze env files st).state.cache files =
      ((runLoop env st.cache files).1, [], (runAnalyze env files st).state.cache) :=
    hidem _ hagree
  have hwf1 : cacheWellFormed (runAnalyze env files st).state.cache := by
    intro e he
    rw [runAnalyze_stateCache] at he
    exact hwfL e ((mem_foldl_cacheRemove _ _ _).mp he).1
  have hkeys1 : ∀ e ∈ (runAnalyze env files st).state.cache, e.key ∈ files.map Prod.fst := by
    intro e he
    rw [runAnalyze_stateCache] at he
    rcases (mem_foldl_cacheRemove _ _ _).mp he with ⟨heL, hkey⟩
    rcases hprov e heL with hc | hk
    · by_cases hkp : e.key ∈ files.map Prod.fst
      · exact hkp
      · exfalso
        apply hkey
        rw [List.mem_filter]
        refine ⟨?_, ?_⟩
        · exact List.mem_map.mpr ⟨e, hc, hwf e hc⟩
        · cases hb : includesStr (files.map Prod.fst) e.key with
          | true => exact absurd ((includesStr_iff _ _).mp hb) hkp
          | false => simp
    · exact hk
  have hdel2 : (getAllCachedFilePaths (runAnalyze env files st).state.cache).filter
      (fun p => !(includesStr (files.map Prod.fst) p)) = [] := by
    rw [List.filter_eq_nil_iff]
    intro a ha
    rcases List.mem_map.mp ha with ⟨e, he, hfa⟩
    have hk := hkeys1 e he
    have hfa2 : a = e.key := by rw [← hfa, hwf1 e he]
    rw [hfa2, (includesStr_iff _ _).mpr hk]
    simp
  have hcomps2 : (runAnalyze env files (runAnalyze env files st).state).components =
      (runAnalyze env files st).components := by
    rw [runAnalyze_components, runAnalyze_components, hloop2]
  have hch2 : (runLoop env (runAnalyze env files st).state.cache files).2.1 = [] := by
    rw [hloop2]
  have hflagC : (runAnalyze env files (runAnalyze env files st).state).changeset.componentsJsonChanged
      = false := by
    rw [runAnalyze_cjc, runAnalyze_artC]
    by_cases hf : (runAnalyze env files st).changeset.componentsJsonChanged = true
    · rw [if_pos hf]
      simp [hloop2]
    · rw [if_neg hf]
      rw [runAnalyze_cjc] at hf
      cases hart : st.artComponents with
      | none =>
        rw [hart] at hf
        simp at hf
      | some old =>
        rw [hart] at hf
        have hb : (env.hashComponents old ==
            env.hashComponents (runLoop env st.cache files).1) = true := by
          simpa using hf
        simp [hloop2, hb]
  have hflagP : (runAnalyze env files (runAnalyze env files st).state).changeset.patternsJsonChanged
      = false := by
    rw [runAnalyze_pjc, runAnalyze_artP]
    by_cases hf : (runAnalyze env files st).changeset.patternsJsonChanged = true
    · rw [if_pos hf]
      simp [hloop2]
    · rw [if_neg hf]
      rw [runAnalyze_pjc] at hf
      cases hart : st.artPatterns with
      | none =>
        rw [hart] at hf
        simp at hf
      | some old =>
        rw [hart] at hf
        have hb : (env.hashPatterns old ==
            env.hashPatterns (detectPatterns (runLoop env st.cache files).1)) = true := by
          simpa using hf
        simp [hloop2, hb]
  have hflagW : (runAnalyze env files (runAnalyze env files st).state).changeset.workflowsJsonChanged
      = false := by
    rw [runAnalyze_wjc, runAnalyze_artW]
    by_cases hf : (runAnalyze env files st).changeset.workflowsJsonChanged = true
    · rw [if_pos hf]
      simp [hloop2]
    · rw [if_neg hf]
      rw [runAnalyze_wjc] at hf
      cases hart : st.artWorkflows with
      | none =>
        rw [hart] at hf
        simp at hf
      | some old =>
        rw [hart] at hf
        have hb : (env.hashWorkflows old ==
            env.hashWorkflows (detectWorkflows (runLoop env st.cache files).1)) = true := by
          simpa using hf
        simp [hloop2, hb]
  refine ⟨?_, hcomps2, ?_, ?_, ?_⟩
  · apply changesetEq
    · rw [runAnalyze_new, hch2]
      rfl
    · rw [runAnalyze_changed, hch2]
      rfl
    · rw [runAnalyze_deleted]
      exact hdel2
    · exact hflagC
    · exact hflagP
    · exact hflagW
  · rw [runAnalyze_patterns, runAnalyze_patterns, hloop2]
  · rw [runAnalyze_workflows, runAnalyze_workflows, hloop2]
  · apply analyzeStateEq
    · rw [runAnalyze_stateCache env files (runAnalyze env files st).state, hdel2, hloop2]
      rfl
    · rw [runAnalyze_artC env files (runAnalyze env files st).state, hflagC]
      rw [runAnalyze_artC]
      rfl
    · rw [runAnalyze_artP env files (runAnalyze env files st).state, hflagP]
      rw [runAnalyze_artP]
      rfl
    · rw [runAnalyze_artW env files (runAnalyze env files st).state, hflagW]
      rw [runAnalyze_artW]
      rfl

end UserLens
namespace UserLens

/-- C3 counterexample: in the legacy scenario (a cache hit on an entry whose
stored metadata path is absolute), the second run — on the unchanged file
set, with cache and artifacts exactly as the first run left them — reports
the absolute path as deleted again, so its changeset is NOT the empty one
the claim requires. -/
theorem claim_C3_counterexample :
    (runAnalyze legacyEnv legacyFiles
        (runAnalyze legacyEnv legacyFiles legacyState).state).changeset.deletedComponents
      = ["/proj/a.tsx"] ∧
    ¬ ((runAnalyze legacyEnv legacyFiles
        (runAnalyze legacyEnv legacyFiles legacyState).state).changeset
      = ⟨[], [], [], false, false, false⟩) := by
  exact ⟨rfl, by decide⟩

/-- Environment of the C3 witness: identity hash, constant extractor,
identity relativization, constant artifact fingerprints. -/
def c3wEnv : AnalyzeEnv :=
  ⟨fun s => s, fun _ _ => ComponentMetadata.mk "W" "w" [] [] [] ComponentCategory.layout "",
   fun s => s, fun _ => "", fun _ => "", fun _ => ""⟩

/-- Files of the C3 witness: one relative file. -/
def c3wFiles : List (String × String) := [("a.tsx", "x")]

/-- Initial state of the C3 witness: empty cache, no artifacts. -/
def c3wState : AnalyzeState := ⟨[], none, none, none⟩

/-- C3 witness: the amended idempotence theorem applied to a concrete
one-file project starting from the empty cache, with all three hypotheses
discharged by computation. -/
theorem claim_C3_witness :
    (runAnalyze c3wEnv c3wFiles (runAnalyze c3wEnv c3wFiles c3wState).state).changeset =
      ⟨[], [], [], false, false, false⟩ ∧
    (runAnalyze c3wEnv c3wFiles (runAnalyze c3wEnv c3wFiles c3wState).state).components =
      (runAnalyze c3wEnv c3wFiles c3wState).components ∧
    (runAnalyze c3wEnv c3wFiles (runAnalyze c3wEnv c3wFiles c3wState).state).patterns =
      (runAnalyze c3wEnv c3wFiles c3wState).patterns ∧
    (runAnalyze c3wEnv c3wFiles (runAnalyze c3wEnv c3wFiles c3wState).state).workflows =
      (runAnalyze c3wEnv c3wFiles c3wState).workflows ∧
    (runAnalyze c3wEnv c3wFiles (runAnalyze c3wEnv c3wFiles c3wState).state).state =
      (runAnalyze c3wEnv c3wFiles c3wState).state :=
  claim_C3 c3wEnv c3wFiles c3wState
    (fun e he => absurd he (List.not_mem_nil e)) (by decide) (by decide)

end UserLens
